import Mathlib

/-!
Jury assignment and grading engine of `src/App.jsx`

A shallow embedding of the jury-assignment and grading functions of `src/App.jsx`
and theorems about them.

Modelling conventions.

* Numbers come in two layers. The definitions of `namespace Binary64` carry the
  arithmetic of IEEE 754 doubles: every operation rounds its exact result to the
  nearest double, a tie going to the even significand, with gradual underflow, overflow
  to an infinity, and `NaN`; a finite double is the rational it denotes. The statements
  whose truth depends on rounding, the value of the final grade, the end of the edit
  window and the value written to the ledger, are made there. The definitions outside
  it compute with exact rationals (`ℚ`, `NaN` being `none` in `JSNum`); they carry the
  statements on rejected calls, the three sample grade values, the roster and the range
  of the final grade.
* `nowMs()` is an explicit argument `now`; one call of an operation reads one instant.
* `Math.random()` is an explicit stream `rnd : Nat → Unit01` of numbers in `[0, 1)`;
  `uid` is an explicit fresh identifier argument.
* `String.prototype.toLowerCase` is a parameter `toLowerCase : String → String`,
  so nothing proved depends on how letters are folded.
* `localStorage` is the `DB` value passed in and returned.
-/

namespace AnonGrading

/-! ## Data model -/

/-- A number as `Number(...)` yields it: `none` is `NaN`. -/
abbrev JSNum := Option ℚ

/-- A registered user: `{ id, username, role }`. -/
structure User where
  id : String
  username : String
  role : String
  deriving DecidableEq, Repr

/-- A project: `{ id, title, teamUsernames, createdBy }`. -/
structure Project where
  id : String
  title : String
  teamUsernames : List String
  createdBy : String
  deriving DecidableEq, Repr

/-- A deliverable. `juryUserIds` is `none` when the stored field is not an array. -/
structure Deliverable where
  id : String
  projectId : String
  title : String
  dueAt : Int
  jurySize : ℚ
  editWindowMin : ℚ
  link : String
  juryUserIds : Option (List String)
  deriving DecidableEq

/-- A grade row: `{ id, deliverableId, evaluatorId, value, createdAt, updatedAt }`. -/
structure Grade where
  id : String
  deliverableId : String
  evaluatorId : String
  value : ℚ
  createdAt : Int
  updatedAt : Int
  deriving DecidableEq

/-- The stored database; `session` holds the logged-in user id. -/
structure DB where
  users : List User
  projects : List Project
  deliverables : List Deliverable
  grades : List Grade
  session : Option String
  deriving DecidableEq

/-- A result of `Math.random()`: a number in `[0, 1)`. -/
abbrev Unit01 := { q : ℚ // 0 ≤ q ∧ q < 1 }

/-! ## Small helpers of the source -/

/-- Source `Math.round`: nearest integer, ties towards `+∞`. -/
def mathRound (x : ℚ) : Int := ⌊x + 1 / 2⌋

/-- Source `clamp2Decimals(num) = Math.round(num * 100) / 100`, in exact arithmetic. -/
def clamp2Decimals (num : ℚ) : ℚ := (mathRound (num * 100) : ℚ) / 100

/-- Source `isValidGrade(x)`: not `NaN`, in `[1, 10]`, and the decimal expansion printed by
    `toString` has no `.` (the number is an integer) or at most two digits after it
    (`100 * x` is an integer). -/
def isValidGrade : JSNum → Bool
  | none => false
  | some x =>
    if x < 1 ∨ x > 10 then false
    else if x.den = 1 then true
    else decide ((x * 100).den = 1)

/-- Source `byId(list, id)` for users. -/
def userById (list : List User) (id : String) : Option User :=
  list.find? (fun x => x.id == id)

/-- Source `byId(list, id)` for projects. -/
def projectById (list : List Project) (id : String) : Option Project :=
  list.find? (fun x => x.id == id)

/-- Source `byId(list, id)` for deliverables. -/
def deliverableById (list : List Deliverable) (id : String) : Option Deliverable :=
  list.find? (fun x => x.id == id)

/-- Source `arr.slice(s, e)` for `0 ≤ s` and `0 ≤ e`. -/
def slice {α : Type} (a : List α) (s e : Nat) : List α := (a.take e).drop s

section Eligibility

variable (toLowerCase : String → String)

/-- Source `isUserInTeam(project, username)`. -/
def isUserInTeam (project : Project) (username : String) : Bool :=
  project.teamUsernames.any (fun u => toLowerCase u == toLowerCase username)

/-- Source `eligibleEvaluatorsForDeliverable(db, deliverable)`. -/
def eligibleEvaluatorsForDeliverable (db : DB) (deliverable : Deliverable) : List User :=
  match projectById db.projects deliverable.projectId with
  | none => []
  | some project =>
    db.users.filter (fun u => u.role == "student" && !isUserInTeam toLowerCase project u.username)

end Eligibility

/-! ## Shuffle -/

/-- The destructuring swap `[a[i], a[j]] = [a[j], a[i]]` for indices inside the array. -/
def swap {α : Type} (a : List α) (i j : Nat) : List α :=
  match a[i]?, a[j]? with
  | some x, some y => (a.set i y).set j x
  | _, _ => a

/-- The loop of `shuffle`, for the loop variable going from `i` down to `1`; `k` is the
    number of calls of `Math.random()` made so far. -/
def shuffleLoop {α : Type} (rnd : Nat → Unit01) : Nat → Nat → List α → List α
  | 0, _, a => a
  | i + 1, k, a =>
    let j := (⌊(rnd k).1 * (((i + 1 : Nat) : ℚ) + 1)⌋).toNat
    shuffleLoop rnd i (k + 1) (swap a (i + 1) j)

/-- Source `shuffle(arr)`: Fisher-Yates on a copy of `arr`. -/
def shuffle {α : Type} (rnd : Nat → Unit01) (arr : List α) : List α :=
  shuffleLoop rnd (arr.length - 1) 0 arr

/-! ## Jury assignment -/

section Jury

variable (toLowerCase : String → String)

/-- Source `assignJuryIfDue(db, deliverable)`; the result is the deliverable after the call. -/
def assignJuryIfDue (db : DB) (deliverable : Deliverable) (now : Int) (rnd : Nat → Unit01) :
    Deliverable :=
  if now < deliverable.dueAt then deliverable
  else
    let jury : List String :=
      match deliverable.juryUserIds with
      | some l => l
      | none => []
    let eligible := eligibleEvaluatorsForDeliverable toLowerCase db deliverable
    let wanted : ℚ := max 3 (if deliverable.jurySize = 0 then 3 else deliverable.jurySize)
    let candidates := eligible.filter (fun u => !jury.contains u.id)
    let needed : ℚ := wanted - jury.length
    if needed ≤ 0 then { deliverable with juryUserIds := some jury }
    else
      let added := (slice (shuffle rnd candidates) 0
        (⌊min needed (candidates.length : ℚ)⌋).toNat).map (fun u => u.id)
      { deliverable with juryUserIds := some (jury ++ added) }

/-- The effect of `assignJuryIfDue(db, d)` on the database when `d` is the deliverable
    at position `i` of `db.deliverables`: that object is updated in place. -/
def assignJuryAt (db : DB) (i : Nat) (now : Int) (rnd : Nat → Unit01) : DB :=
  match db.deliverables[i]? with
  | none => db
  | some d =>
    { db with deliverables := db.deliverables.set i (assignJuryIfDue toLowerCase db d now rnd) }

end Jury

/-! ## Grading -/

/-- Source `canEditGrade(deliverable)`, in exact arithmetic. -/
def canEditGrade (deliverable : Deliverable) (now : Int) : Bool :=
  decide ((now : ℚ) ≤ (deliverable.dueAt : ℚ) + deliverable.editWindowMin * 60 * 1000)

/-- Source `getGradesForDeliverable(db, deliverableId)`. -/
def getGradesForDeliverable (db : DB) (deliverableId : String) : List Grade :=
  db.grades.filter (fun g => g.deliverableId == deliverableId)

/-- Source `computeFinalGradeFromValues(values)`, in exact arithmetic; `none` is `null`. -/
def computeFinalGradeFromValues (values : List ℚ) : Option ℚ :=
  if values.length < 3 then none
  else
    let sorted := values.insertionSort (fun a b => a ≤ b)
    let trimmed := slice sorted 1 (sorted.length - 1)
    let avg := trimmed.foldl (fun s x => s + x) 0 / (trimmed.length : ℚ)
    some (clamp2Decimals avg)

/-- How a call of `submitGrade` ends: a silent return, one of the three alerts, or
    the save. -/
inductive SubmitOutcome where
  | ignored
  | notJuror
  | editingExpired
  | invalidGrade
  | saved
  deriving DecidableEq, Repr

/-- The in-place update of the object that `find` returned: the first element
    satisfying `p` is replaced by `f` of it. -/
def updateFirst (p : Grade → Bool) (f : Grade → Grade) : List Grade → List Grade
  | [] => []
  | g :: gs => if p g then f g :: gs else g :: updateFirst p f gs

/-- The write of `submitGrade` once every check has passed: the row that `find`
    returns for the pair is updated in place, or a new row is pushed. -/
def recordGrade (db : DB) (deliverableId evaluatorId : String) (val : ℚ) (newId : String)
    (now : Int) : DB :=
  let mine : Grade → Bool :=
    fun x => x.deliverableId == deliverableId && x.evaluatorId == evaluatorId
  match db.grades.find? mine with
  | none =>
    { db with grades := db.grades ++
        [{ id := newId, deliverableId := deliverableId, evaluatorId := evaluatorId,
           value := val, createdAt := now, updatedAt := now }] }
  | some _ =>
    { db with grades :=
        updateFirst mine (fun g => { g with value := val, updatedAt := now }) db.grades }

/-- Source `submitGrade(deliverableId, value)` on the stored database `db`; `value` is
    `Number(value)`, `newId` is the `uid("g")` of a new row. The first component is
    the stored database after the call: `saveDB` is reached only at the end. -/
def submitGrade (db : DB) (deliverableId : String) (value : JSNum) (newId : String)
    (now : Int) : DB × SubmitOutcome :=
  match db.session.bind (userById db.users), deliverableById db.deliverables deliverableId with
  | some me, some d =>
    if !((d.juryUserIds.getD []).contains me.id) then (db, .notJuror)
    else if !canEditGrade d now then (db, .editingExpired)
    else
      let val : JSNum := value.map clamp2Decimals
      if !isValidGrade val then (db, .invalidGrade)
      else
        match val with
        | none => (db, .invalidGrade)
        | some v => (recordGrade db deliverableId me.id v newId now, .saved)
  | _, _ => (db, .ignored)

/-! ## Double-precision arithmetic -/

namespace Binary64

/-- The nearest integer, a tie going to the even one. -/
def roundHalfEven (x : ℚ) : Int :=
  if x - (⌊x⌋ : ℚ) < 1 / 2 then ⌊x⌋
  else if 1 / 2 < x - (⌊x⌋ : ℚ) then ⌊x⌋ + 1
  else if ⌊x⌋ % 2 = 0 then ⌊x⌋ else ⌊x⌋ + 1

/-- The number of halvings that bring `n` below 2, with `fuel` bounding the recursion. -/
def floorLog2Aux : Nat → Nat → Nat
  | 0, _ => 0
  | fuel + 1, n => if 2 ≤ n then floorLog2Aux fuel (n / 2) + 1 else 0

/-- The position of the leading bit of a positive natural number: the `k` with
    `2 ^ k ≤ n < 2 ^ (k + 1)`. -/
def floorLog2 (n : Nat) : Nat := floorLog2Aux n n

/-- The binary exponent of a non-zero number: the `e` with `2 ^ e ≤ |x| < 2 ^ (e + 1)`. -/
def binade (x : ℚ) : Int :=
  if (2 : ℚ) ^ ((floorLog2 x.num.natAbs : Int) - (floorLog2 x.den : Int)) ≤ |x| then
    (floorLog2 x.num.natAbs : Int) - (floorLog2 x.den : Int)
  else (floorLog2 x.num.natAbs : Int) - (floorLog2 x.den : Int) - 1

/-- The exponent of the spacing of the doubles around `x`: 52 below the binade of `x`,
    and `-1074` for the subnormal numbers. -/
def ulpExponent (x : ℚ) : Int := max (binade x) (-1022) - 52

/-- Rounding of an exact result to the nearest number with a 53-bit significand, a tie
    going to the even significand. -/
def roundToDouble (x : ℚ) : ℚ :=
  if x = 0 then 0
  else (roundHalfEven (x / (2 : ℚ) ^ ulpExponent x) : ℚ) * (2 : ℚ) ^ ulpExponent x

/-- A JavaScript number: a finite double, an infinity or `NaN`. The sign of zero is not
    kept. -/
inductive F64 where
  | fin (q : ℚ)
  | posInf
  | negInf
  | nan
  deriving DecidableEq, Repr

/-- The double that an operation with the exact result `x` returns: the rounded value, or
    an infinity when the rounded value is beyond the largest double. -/
def ofExact (x : ℚ) : F64 :=
  if (2 : ℚ) ^ (1024 : Nat) ≤ roundToDouble x then F64.posInf
  else if roundToDouble x ≤ -(2 : ℚ) ^ (1024 : Nat) then F64.negInf
  else F64.fin (roundToDouble x)

/-- Source `a + b`. -/
def add : F64 → F64 → F64
  | .fin a, .fin b => ofExact (a + b)
  | .nan, _ => .nan
  | _, .nan => .nan
  | .posInf, .negInf => .nan
  | .negInf, .posInf => .nan
  | .posInf, _ => .posInf
  | _, .posInf => .posInf
  | .negInf, _ => .negInf
  | _, .negInf => .negInf

/-- Source `a * c` for a finite `c > 0`. -/
def scale (a : F64) (c : ℚ) : F64 :=
  match a with
  | .fin q => ofExact (q * c)
  | other => other

/-- Source `a / c` for a finite `c > 0`. -/
def divide (a : F64) (c : ℚ) : F64 :=
  match a with
  | .fin q => ofExact (q / c)
  | other => other

/-- Source `Math.round(a)`: the nearest integer, a tie going towards `+∞`; computed
    without rounding error. -/
def mathRound (a : F64) : F64 :=
  match a with
  | .fin q => .fin ((⌊q + 1 / 2⌋ : Int) : ℚ)
  | other => other

/-- Source `t <= a` for an integer `t`. -/
def leF64 (t : Int) (a : F64) : Bool :=
  match a with
  | .fin q => decide ((t : ℚ) ≤ q)
  | .posInf => true
  | .negInf => false
  | .nan => false

/-- Source `clamp2Decimals(num) = Math.round(num * 100) / 100`. -/
def clamp2Decimals (num : F64) : F64 := divide (mathRound (scale num 100)) 100

/-- Source `canEditGrade(deliverable)`: `end` is `dueAt + editWindowMin * 60 * 1000`. -/
def windowEnd (deliverable : Deliverable) : F64 :=
  add (.fin (deliverable.dueAt : ℚ)) (scale (scale (.fin deliverable.editWindowMin) 60) 1000)

/-- Source `canEditGrade(deliverable)`. -/
def canEditGrade (deliverable : Deliverable) (now : Int) : Bool :=
  leF64 now (windowEnd deliverable)

/-- Source `computeFinalGradeFromValues(values)` on finite doubles; `none` is `null`. -/
def computeFinalGradeFromValues (values : List ℚ) : Option F64 :=
  if values.length < 3 then none
  else
    let sorted := values.insertionSort (fun a b => a ≤ b)
    let trimmed := slice sorted 1 (sorted.length - 1)
    let avg := divide (trimmed.foldl (fun s x => add s (.fin x)) (.fin 0)) (trimmed.length : ℚ)
    some (clamp2Decimals avg)

/-- Source `isValidGrade(x)`: not `NaN`, in `[1, 10]`, and the text of `x.toString()` has
    no `.` or at most two digits after it. `toString` prints the shortest decimal that
    reads back as `x`, so for `x` in `[1, 10]` the test holds exactly when `x` is an
    integer or the double nearest to a number of hundredths. -/
def isValidGrade : F64 → Bool
  | .fin x =>
    if x < 1 ∨ x > 10 then false
    else if x.den = 1 then true
    else decide (roundToDouble (((⌊x * 100 + 1 / 2⌋ : Int) : ℚ) / 100) = x)
  | _ => false

/-- Source `submitGrade(deliverableId, value)` with the arithmetic of doubles; `value`
    is `Number(value)`. The first component is the stored database after the call. -/
def submitGrade (db : DB) (deliverableId : String) (value : F64) (newId : String)
    (now : Int) : DB × SubmitOutcome :=
  match db.session.bind (userById db.users), deliverableById db.deliverables deliverableId with
  | some me, some d =>
    if !((d.juryUserIds.getD []).contains me.id) then (db, .notJuror)
    else if !canEditGrade d now then (db, .editingExpired)
    else
      let val : F64 := clamp2Decimals value
      if !isValidGrade val then (db, .invalidGrade)
      else
        match val with
        | .fin v => (recordGrade db deliverableId me.id v newId now, .saved)
        | _ => (db, .invalidGrade)
  | _, _ => (db, .ignored)

end Binary64

/-! ## Auxiliary notions used in the statements -/

/-- The roster read as a list: a field that is not an array counts as empty. -/
def roster (d : Deliverable) : List String := d.juryUserIds.getD []

/-- The `candidates` of `assignJuryIfDue`. -/
def candidatesOf (toLowerCase : String → String) (db : DB) (d : Deliverable) : List User :=
  (eligibleEvaluatorsForDeliverable toLowerCase db d).filter (fun u => !(roster d).contains u.id)

/-- The `needed` of `assignJuryIfDue`. -/
def neededOf (d : Deliverable) : ℚ :=
  max 3 (if d.jurySize = 0 then 3 else d.jurySize) - (roster d).length

/-- The users whose ids a due call appends: none when `needed <= 0`. -/
def addedUsers (toLowerCase : String → String) (db : DB) (d : Deliverable)
    (rnd : Nat → Unit01) : List User :=
  if neededOf d ≤ 0 then []
  else (shuffle rnd (candidatesOf toLowerCase db d)).take
    (⌊min (neededOf d) ((candidatesOf toLowerCase db d).length : ℚ)⌋).toNat

/-- The key of a grade row: the pair of deliverable and evaluator. -/
def gradeKey (g : Grade) : String × String := (g.deliverableId, g.evaluatorId)

/-- At most one grade row per pair of deliverable and evaluator. -/
def GradesUnique (gs : List Grade) : Prop := (gs.map gradeKey).Nodup

instance (gs : List Grade) : Decidable (GradesUnique gs) := by
  unfold GradesUnique; infer_instance

namespace Binary64

/-- One call of `submitGrade` together with who is logged in when it is made. -/
structure Submission where
  session : Option String
  deliverableId : String
  value : F64
  newId : String
  now : Int

/-- A sequence of `submitGrade` calls, each made under its own session. -/
def submitAll (db : DB) : List Submission → DB
  | [] => db
  | c :: cs =>
    submitAll (submitGrade { db with session := c.session } c.deliverableId c.value
      c.newId c.now).1 cs

end Binary64

/-! ## Reference definitions that follow the specification -/

/-- Rounding half-up to two decimal places, as the specification words it: to the
    nearest hundredth, a tie going up. -/
def roundHalfUp2 (x : ℚ) : ℚ := ((⌊x * 100 + 1 / 2⌋ : Int) : ℚ) / 100

/-- The trimmed mean as the specification words it: undetermined below three values,
    otherwise the sum of all values minus one minimum and one maximum, divided by
    `n - 2` and rounded half-up to two decimal places. -/
def trimmedMeanSpec : List ℚ → Option ℚ
  | [] => none
  | v :: vs =>
    if (v :: vs).length < 3 then none
    else some (roundHalfUp2
      (((v :: vs).sum - vs.foldl min v - vs.foldl max v) / (((v :: vs).length : ℚ) - 2)))

/-- The second-smallest value of a list, counted with repetitions: the element at
    index 1 of the list in ascending order. -/
def secondSmallest (values : List ℚ) : Option ℚ :=
  (values.insertionSort (fun a b => a ≤ b))[1]?

/-- The second-largest value of a list, counted with repetitions: the element before
    the last one of the list in ascending order. -/
def secondLargest (values : List ℚ) : Option ℚ :=
  (values.insertionSort (fun a b => a ≤ b))[values.length - 2]?

/-! ## A sample database for the concrete instances -/

/-- Lower-casing of the ASCII letters, the `toLowerCase` of the concrete instances. -/
def asciiLower (s : String) : String := String.mk (s.data.map Char.toLower)

/-- Five students and one staff member. -/
def sampleUsers : List User :=
  [⟨"u1", "alice", "student"⟩, ⟨"u2", "Bob", "student"⟩, ⟨"u3", "carol", "student"⟩,
   ⟨"u4", "dave", "student"⟩, ⟨"u5", "erin", "student"⟩, ⟨"u6", "prof", "staff"⟩]

/-- A project whose team is alice and bob, written in another letter case. -/
def sampleProject : Project := ⟨"p1", "Compiler", ["Alice", "bob"], "u1"⟩

/-- A deliverable of the sample project, due at `1000`, asking for a jury of five. -/
def sampleDeliverable : Deliverable :=
  { id := "d1", projectId := "p1", title := "Report", dueAt := 1000, jurySize := 5,
    editWindowMin := 10, link := "", juryUserIds := some [] }

/-- The sample database, with carol logged in. -/
def sampleDB : DB := ⟨sampleUsers, [sampleProject], [sampleDeliverable], [], some "u3"⟩

/-- The random stream that always returns `0`. -/
def rndZero : Nat → Unit01 := fun _ => ⟨0, by norm_num⟩

/-- The random stream that always returns `1/2`. -/
def rndHalf : Nat → Unit01 := fun _ => ⟨1 / 2, by norm_num⟩

/-- The sample deliverable after its jury was drawn. -/
def juriedDeliverable : Deliverable :=
  { sampleDeliverable with juryUserIds := some ["u4", "u5", "u3"] }

/-- The sample database after the jury was drawn, with carol logged in and no grade yet. -/
def juriedDB : DB := ⟨sampleUsers, [sampleProject], [juriedDeliverable], [], some "u3"⟩

/-- The sample database after carol graded the deliverable with `7` at time `1500`. -/
def gradedDB : DB :=
  { juriedDB with grades := [⟨"g0", "d1", "u3", 7, 1500, 1500⟩] }

/-- A project whose team is alice alone, so that four students are outside the team. -/
def soloProject : Project := ⟨"p2", "Parser", ["Alice"], "u1"⟩

/-- A deliverable of the solo project with the jury size `3.5`, a value that
    `createDeliverable` lets through: it is finite and not below 3. -/
def halfSizeDeliverable : Deliverable :=
  { id := "d2", projectId := "p2", title := "Draft", dueAt := 1000, jurySize := 7 / 2,
    editWindowMin := 10, link := "", juryUserIds := some [] }

/-- The database of the solo project. -/
def soloDB : DB := ⟨sampleUsers, [soloProject], [halfSizeDeliverable], [], some "u1"⟩

/-- The sample database after dave and then carol graded the deliverable: carol's row is
    the second row of the ledger. -/
def twoRowDB : DB :=
  { juriedDB with
    grades := [⟨"g0", "d1", "u4", 6, 1400, 1400⟩, ⟨"g1", "d1", "u3", 7, 1500, 1500⟩] }

/-- The sample deliverable with its jury and an edit window of `4.29` minutes, the double
    nearest to that decimal; `createDeliverable` lets such a window through. -/
def fractionalWindowDeliverable : Deliverable :=
  { juriedDeliverable with editWindowMin := Binary64.roundToDouble (429 / 100) }

/-- The database of the deliverable with the window of `4.29` minutes, carol logged in. -/
def fractionalWindowDB : DB :=
  ⟨sampleUsers, [sampleProject], [fractionalWindowDeliverable], [], some "u3"⟩

/-! ## Lemmas on the shuffle -/

theorem cons_set_perm {α : Type} (x y : α) :
    ∀ (l : List α) (j : Nat), l[j]? = some y → (y :: l.set j x).Perm (x :: l)
  | [], j, h => by simp at h
  | z :: t, 0, h => by
    simp at h
    subst h
    simpa using List.Perm.swap x z t
  | z :: t, j + 1, h => by
    simp at h
    have ih := cons_set_perm x y t j h
    simp only [List.set_cons_succ]
    exact ((List.Perm.swap z y _).trans (ih.cons z)).trans (List.Perm.swap x z t)

theorem swap_perm {α : Type} : ∀ (a : List α) (i j : Nat), (swap a i j).Perm a
  | [], i, j => by simp [swap]
  | h :: t, 0, 0 => by simp [swap]
  | h :: t, 0, j + 1 => by
    unfold swap
    cases hj : t[j]? with
    | none => simp [hj]
    | some y => simpa [hj] using cons_set_perm h y t j hj
  | h :: t, i + 1, 0 => by
    unfold swap
    cases hi : t[i]? with
    | none => simp [hi]
    | some x => simpa [hi] using cons_set_perm h x t i hi
  | h :: t, i + 1, j + 1 => by
    have ih := swap_perm t i j
    unfold swap at ih ⊢
    cases hi : t[i]? with
    | none => simp [hi]
    | some x =>
      cases hj : t[j]? with
      | none => simp [hi, hj]
      | some y => simpa [hi, hj] using ih

theorem shuffleLoop_perm {α : Type} (rnd : Nat → Unit01) :
    ∀ (i k : Nat) (a : List α), (shuffleLoop rnd i k a).Perm a
  | 0, _, a => by simp [shuffleLoop]
  | i + 1, k, a => by
    simp only [shuffleLoop]
    exact (shuffleLoop_perm rnd i (k + 1) _).trans (swap_perm a _ _)

theorem shuffle_perm {α : Type} (rnd : Nat → Unit01) (arr : List α) :
    (shuffle rnd arr).Perm arr :=
  shuffleLoop_perm rnd _ _ _

theorem slice_zero {α : Type} (a : List α) (e : Nat) : slice a 0 e = a.take e := by
  simp [slice]

/-! ## Lemmas on the jury assignment -/

theorem assignJuryIfDue_early (toLowerCase : String → String) (db : DB) (d : Deliverable)
    (now : Int) (rnd : Nat → Unit01) (h : now < d.dueAt) :
    assignJuryIfDue toLowerCase db d now rnd = d := by
  simp [assignJuryIfDue, h]

theorem assignJuryIfDue_due (toLowerCase : String → String) (db : DB) (d : Deliverable)
    (now : Int) (rnd : Nat → Unit01) (h : ¬ now < d.dueAt) :
    assignJuryIfDue toLowerCase db d now rnd =
      { d with
        juryUserIds := some (roster d ++ (addedUsers toLowerCase db d rnd).map (fun u => u.id)) } := by
  have hj : (match d.juryUserIds with | some l => l | none => []) = roster d := by
    unfold roster; cases d.juryUserIds <;> rfl
  unfold assignJuryIfDue
  simp only [h, if_false, hj]
  by_cases hn : neededOf d ≤ 0
  · have hn2 := hn
    unfold neededOf at hn2
    simp only [addedUsers, hn, hn2, if_true, List.map_nil, List.append_nil]
  · have hn2 := hn
    unfold neededOf at hn2
    simp only [addedUsers, hn, hn2, if_false, slice_zero]
    rfl

theorem roster_assignJuryIfDue (toLowerCase : String → String) (db : DB) (d : Deliverable)
    (now : Int) (rnd : Nat → Unit01) :
    roster (assignJuryIfDue toLowerCase db d now rnd) =
      if now < d.dueAt then roster d
      else roster d ++ (addedUsers toLowerCase db d rnd).map (fun u => u.id) := by
  by_cases h : now < d.dueAt
  · simp [assignJuryIfDue_early, h]
  · simp [assignJuryIfDue_due, h, roster]

theorem mem_addedUsers (toLowerCase : String → String) (db : DB) (d : Deliverable)
    (rnd : Nat → Unit01) (u : User) (hu : u ∈ addedUsers toLowerCase db d rnd) :
    u ∈ candidatesOf toLowerCase db d := by
  unfold addedUsers at hu
  split at hu
  · simp at hu
  · exact (shuffle_perm rnd _).subset (List.mem_of_mem_take hu)

theorem mem_candidatesOf (toLowerCase : String → String) (db : DB) (d : Deliverable)
    (u : User) :
    u ∈ candidatesOf toLowerCase db d ↔
      u ∈ eligibleEvaluatorsForDeliverable toLowerCase db d ∧ u.id ∉ roster d := by
  simp [candidatesOf]

theorem mem_eligible (toLowerCase : String → String) (db : DB) (d : Deliverable) (p : Project)
    (hp : projectById db.projects d.projectId = some p) (u : User) :
    u ∈ eligibleEvaluatorsForDeliverable toLowerCase db d ↔
      u ∈ db.users ∧ u.role = "student" ∧ isUserInTeam toLowerCase p u.username = false := by
  simp [eligibleEvaluatorsForDeliverable, hp]

theorem length_addedUsers (toLowerCase : String → String) (db : DB) (d : Deliverable)
    (rnd : Nat → Unit01) (hn : ¬ neededOf d ≤ 0) :
    ((addedUsers toLowerCase db d rnd).length : ℚ) =
      ((⌊min (neededOf d) ((candidatesOf toLowerCase db d).length : ℚ)⌋ : Int) : ℚ) := by
  have hpos : (0 : ℚ) ≤ min (neededOf d) ((candidatesOf toLowerCase db d).length : ℚ) :=
    le_min (le_of_lt (not_le.mp hn)) (Nat.cast_nonneg _)
  have hfl : (0 : Int) ≤ ⌊min (neededOf d) ((candidatesOf toLowerCase db d).length : ℚ)⌋ :=
    Int.floor_nonneg.mpr hpos
  have hle : (⌊min (neededOf d) ((candidatesOf toLowerCase db d).length : ℚ)⌋).toNat ≤
      (candidatesOf toLowerCase db d).length := by
    have h1 : ((⌊min (neededOf d) ((candidatesOf toLowerCase db d).length : ℚ)⌋ : Int) : ℚ) ≤
        ((candidatesOf toLowerCase db d).length : ℚ) :=
      le_trans (Int.floor_le _) (min_le_right _ _)
    have h2 : ⌊min (neededOf d) ((candidatesOf toLowerCase db d).length : ℚ)⌋ ≤
        ((candidatesOf toLowerCase db d).length : Int) := by exact_mod_cast h1
    omega
  simp only [addedUsers, hn, if_false, List.length_take, (shuffle_perm rnd _).length_eq]
  rw [min_eq_left hle]
  have h3 : (((⌊min (neededOf d) ((candidatesOf toLowerCase db d).length : ℚ)⌋).toNat : Int)) =
      ⌊min (neededOf d) ((candidatesOf toLowerCase db d).length : ℚ)⌋ := Int.toNat_of_nonneg hfl
  exact_mod_cast congrArg (fun z : Int => (z : ℚ)) h3

theorem eligible_congr (toLowerCase : String → String) (db db' : DB) (d d' : Deliverable)
    (hu : db'.users = db.users) (hp : db'.projects = db.projects)
    (hd : d'.projectId = d.projectId) :
    eligibleEvaluatorsForDeliverable toLowerCase db' d' =
      eligibleEvaluatorsForDeliverable toLowerCase db d := by
  simp [eligibleEvaluatorsForDeliverable, hu, hp, hd]

/-- A second due call finds nothing to append. -/
theorem addedUsers_after_due (toLowerCase : String → String) (db db' : DB) (d : Deliverable)
    (rnd1 rnd2 : Nat → Unit01)
    (hu : db'.users = db.users) (hp : db'.projects = db.projects) :
    addedUsers toLowerCase db'
      { d with
        juryUserIds := some (roster d ++ (addedUsers toLowerCase db d rnd1).map (fun u => u.id)) }
      rnd2 = [] := by
  set d1 : Deliverable := { d with
    juryUserIds := some (roster d ++ (addedUsers toLowerCase db d rnd1).map (fun u => u.id)) }
    with hd1
  have hr1 : roster d1 = roster d ++ (addedUsers toLowerCase db d rnd1).map (fun u => u.id) := rfl
  have hlen : ((roster d1).length : ℚ) =
      (roster d).length + (addedUsers toLowerCase db d rnd1).length := by
    rw [hr1]; simp
  have hneed : neededOf d1 = neededOf d - (addedUsers toLowerCase db d rnd1).length := by
    unfold neededOf
    rw [hlen]
    show max 3 (if d.jurySize = 0 then 3 else d.jurySize) - _ = _
    ring
  have hel : eligibleEvaluatorsForDeliverable toLowerCase db' d1 =
      eligibleEvaluatorsForDeliverable toLowerCase db d :=
    eligible_congr toLowerCase db db' d d1 hu hp rfl
  by_cases hn1 : neededOf d1 ≤ 0
  · simp [addedUsers, hn1]
  · by_cases hn : neededOf d ≤ 0
    · exfalso
      apply hn1
      rw [hneed]
      have : addedUsers toLowerCase db d rnd1 = [] := by simp [addedUsers, hn]
      simpa [this] using hn
    · have hlenA := length_addedUsers toLowerCase db d rnd1 hn
      rcases le_total (neededOf d) ((candidatesOf toLowerCase db d).length : ℚ) with hc | hc
      · -- the target is met: fewer than one place is left
        rw [min_eq_left hc] at hlenA
        have hlt : neededOf d1 < 1 := by
          rw [hneed, hlenA]
          have := Int.lt_floor_add_one (neededOf d)
          linarith
        have hz : (⌊min (neededOf d1)
            ((candidatesOf toLowerCase db' d1).length : ℚ)⌋).toNat = 0 := by
          have h0 : ⌊min (neededOf d1) ((candidatesOf toLowerCase db' d1).length : ℚ)⌋ ≤ 0 := by
            have : ⌊min (neededOf d1) ((candidatesOf toLowerCase db' d1).length : ℚ)⌋ < 1 := by
              rw [Int.floor_lt]
              exact lt_of_le_of_lt (min_le_left _ _) (by exact_mod_cast hlt)
            omega
          omega
        simp [addedUsers, hn1, hz]
      · -- the pool is exhausted: every candidate was appended
        rw [min_eq_right hc] at hlenA
        have hlenB : (addedUsers toLowerCase db d rnd1).length =
            (candidatesOf toLowerCase db d).length := by
          have : (((addedUsers toLowerCase db d rnd1).length : Int) : ℚ) =
              (((candidatesOf toLowerCase db d).length : Int) : ℚ) := by
            rw [Int.floor_natCast] at hlenA
            exact_mod_cast hlenA
          exact_mod_cast this
        have hall : ∀ u ∈ candidatesOf toLowerCase db d, u ∈ addedUsers toLowerCase db d rnd1 := by
          intro u hu'
          have hperm := shuffle_perm rnd1 (candidatesOf toLowerCase db d)
          have htake : addedUsers toLowerCase db d rnd1 =
              shuffle rnd1 (candidatesOf toLowerCase db d) := by
            have hlen2 := hlenB
            simp only [addedUsers, hn, if_false] at hlen2 ⊢
            rw [List.length_take, hperm.length_eq] at hlen2
            apply List.take_of_length_le
            rw [hperm.length_eq]
            omega
          rw [htake]
          exact hperm.symm.subset hu'
        have hcand : candidatesOf toLowerCase db' d1 = [] := by
          unfold candidatesOf
          rw [hel, List.filter_eq_nil_iff]
          intro u hu'
          by_cases hin : u.id ∈ roster d
          · simp [hr1, hin]
          · have hcu : u ∈ candidatesOf toLowerCase db d :=
              (mem_candidatesOf _ _ _ _).mpr ⟨hu', hin⟩
            have hmem : u.id ∈ roster d1 := by
              rw [hr1]
              exact List.mem_append.mpr (Or.inr (List.mem_map.mpr ⟨u, hall u hcu, rfl⟩))
            simp [hmem]
        have hsh : shuffle rnd2 ([] : List User) = [] := (shuffle_perm rnd2 []).eq_nil
        simp [addedUsers, hcand, hsh]

/-! ## Lemmas on the final grade -/

theorem foldl_min_spec : ∀ (vs : List ℚ) (v : ℚ),
    vs.foldl min v ∈ v :: vs ∧ ∀ x ∈ v :: vs, vs.foldl min v ≤ x
  | [], v => by simp
  | w :: ws, v => by
    obtain ⟨hm, hle⟩ := foldl_min_spec ws (min v w)
    simp only [List.foldl_cons]
    constructor
    · rcases List.mem_cons.mp hm with h | h
      · rw [h]
        rcases min_choice v w with h' | h' <;> simp [h']
      · simp [h]
    · intro x hx
      have h0 := hle (min v w) (List.mem_cons_self _ _)
      rcases List.mem_cons.mp hx with h | h
      · rw [h]; exact le_trans h0 (min_le_left _ _)
      · rcases List.mem_cons.mp h with h | h
        · rw [h]; exact le_trans h0 (min_le_right _ _)
        · exact hle x (List.mem_cons_of_mem _ h)

theorem foldl_max_spec : ∀ (vs : List ℚ) (v : ℚ),
    vs.foldl max v ∈ v :: vs ∧ ∀ x ∈ v :: vs, x ≤ vs.foldl max v
  | [], v => by simp
  | w :: ws, v => by
    obtain ⟨hm, hle⟩ := foldl_max_spec ws (max v w)
    simp only [List.foldl_cons]
    constructor
    · rcases List.mem_cons.mp hm with h | h
      · rw [h]
        rcases max_choice v w with h' | h' <;> simp [h']
      · simp [h]
    · intro x hx
      have h0 := hle (max v w) (List.mem_cons_self _ _)
      rcases List.mem_cons.mp hx with h | h
      · rw [h]; exact le_trans (le_max_left _ _) h0
      · rcases List.mem_cons.mp h with h | h
        · rw [h]; exact le_trans (le_max_right _ _) h0
        · exact hle x (List.mem_cons_of_mem _ h)

theorem foldl_add_eq_sum (l : List ℚ) : l.foldl (fun s x => s + x) 0 = l.sum := by
  have h : ∀ (l : List ℚ) (a : ℚ), l.foldl (fun s x => s + x) a = a + l.sum := by
    intro l
    induction l with
    | nil => intro a; simp
    | cons x xs ih => intro a; simp [ih, add_assoc]
  simpa using h l 0

/-- A list of at least two elements is a first element, a middle part and a last element. -/
theorem exists_first_mid_last {α : Type} (s : List α) (h : 2 ≤ s.length) :
    ∃ a mid b, s = a :: (mid ++ [b]) := by
  cases s with
  | nil => simp at h
  | cons a t =>
    have ht : t ≠ [] := by
      intro h0
      simp [h0] at h
    exact ⟨a, t.dropLast, t.getLast ht, by rw [List.dropLast_append_getLast]⟩

theorem slice_first_mid_last {α : Type} (a b : α) (mid : List α) :
    slice (a :: (mid ++ [b])) 1 ((a :: (mid ++ [b])).length - 1) = mid := by
  simp [slice]

theorem computeFinalGradeFromValues_eq_spec (values : List ℚ) :
    computeFinalGradeFromValues values = trimmedMeanSpec values := by
  cases values with
  | nil => simp [computeFinalGradeFromValues, trimmedMeanSpec]
  | cons v vs =>
    by_cases hlen : (v :: vs).length < 3
    · simp only [computeFinalGradeFromValues, trimmedMeanSpec, hlen, if_true]
    · simp only [computeFinalGradeFromValues, trimmedMeanSpec, hlen, if_false]
      have hperm := List.perm_insertionSort (fun a b : ℚ => a ≤ b) (v :: vs)
      have hsorted := List.sorted_insertionSort (fun a b : ℚ => a ≤ b) (v :: vs)
      have hlen2 : 2 ≤ ((v :: vs).insertionSort (fun a b : ℚ => a ≤ b)).length := by
        rw [hperm.length_eq]; omega
      obtain ⟨a, mid, b, hs⟩ := exists_first_mid_last _ hlen2
      rw [hs] at hperm hsorted ⊢
      rw [slice_first_mid_last, foldl_add_eq_sum]
      -- the first element of the sorted list is the minimum, the last one the maximum
      have hmin := foldl_min_spec vs v
      have hmax := foldl_max_spec vs v
      have ha_mem : a ∈ v :: vs := hperm.subset (List.mem_cons_self _ _)
      have hb_mem : b ∈ v :: vs := hperm.subset (by simp)
      have ha_le : ∀ x ∈ v :: vs, a ≤ x := by
        intro x hx
        have hx' := hperm.symm.subset hx
        rcases List.mem_cons.mp hx' with h | h
        · rw [h]
        · exact List.rel_of_sorted_cons hsorted x h
      have hb_ge : ∀ x ∈ v :: vs, x ≤ b := by
        intro x hx
        have hx' := hperm.symm.subset hx
        have hpw : (a :: (mid ++ [b])).Pairwise (fun a b : ℚ => a ≤ b) := hsorted
        rw [← List.cons_append, List.pairwise_append] at hpw
        rw [← List.cons_append, List.mem_append] at hx'
        rcases hx' with h | h
        · exact hpw.2.2 x h b (by simp)
        · simp at h; rw [h]
      have ea : vs.foldl min v = a :=
        le_antisymm (hmin.2 a ha_mem) (ha_le _ hmin.1)
      have eb : vs.foldl max v = b :=
        le_antisymm (hb_ge _ hmax.1) (hmax.2 b hb_mem)
      have hsum : (v :: vs).sum = a + mid.sum + b := by
        rw [← hperm.sum_eq]; simp [add_assoc]
      have hn : (((v :: vs).length : ℚ)) = (mid.length : ℚ) + 2 := by
        rw [← hperm.length_eq]; simp; ring
      rw [ea, eb, hsum, hn]
      have e1 : a + mid.sum + b - a - b = mid.sum := by ring
      have e2 : (mid.length : ℚ) + 2 - 2 = mid.length := by ring
      rw [e1, e2]
      rfl

/-! ## Lemmas on the grading ledger -/

theorem submitGrade_ignored (db : DB) (deliverableId : String) (value : JSNum)
    (newId : String) (now : Int)
    (h : db.session.bind (userById db.users) = none ∨
      deliverableById db.deliverables deliverableId = none) :
    submitGrade db deliverableId value newId now = (db, SubmitOutcome.ignored) := by
  unfold submitGrade
  split
  · rename_i me d hme hd
    rcases h with h | h
    · rw [h] at hme; exact absurd hme (by simp)
    · rw [h] at hd; exact absurd hd (by simp)
  · rfl

theorem submitGrade_notJuror (db : DB) (deliverableId : String) (value : JSNum)
    (newId : String) (now : Int) (me : User) (d : Deliverable)
    (hme : db.session.bind (userById db.users) = some me)
    (hd : deliverableById db.deliverables deliverableId = some d)
    (hj : me.id ∉ roster d) :
    submitGrade db deliverableId value newId now = (db, SubmitOutcome.notJuror) := by
  unfold roster at hj
  simp [submitGrade, hme, hd, hj]

theorem submitGrade_expired (db : DB) (deliverableId : String) (value : JSNum)
    (newId : String) (now : Int) (me : User) (d : Deliverable)
    (hme : db.session.bind (userById db.users) = some me)
    (hd : deliverableById db.deliverables deliverableId = some d)
    (hj : me.id ∈ roster d) (hc : canEditGrade d now = false) :
    submitGrade db deliverableId value newId now = (db, SubmitOutcome.editingExpired) := by
  unfold roster at hj
  simp [submitGrade, hme, hd, hj, hc]

theorem submitGrade_invalid (db : DB) (deliverableId : String) (value : JSNum)
    (newId : String) (now : Int) (me : User) (d : Deliverable)
    (hme : db.session.bind (userById db.users) = some me)
    (hd : deliverableById db.deliverables deliverableId = some d)
    (hj : me.id ∈ roster d) (hc : canEditGrade d now = true)
    (hv : isValidGrade (value.map clamp2Decimals) = false) :
    submitGrade db deliverableId value newId now = (db, SubmitOutcome.invalidGrade) := by
  unfold roster at hj
  simp [submitGrade, hme, hd, hj, hc, hv]

theorem submitGrade_saved (db : DB) (deliverableId : String) (x : ℚ)
    (newId : String) (now : Int) (me : User) (d : Deliverable)
    (hme : db.session.bind (userById db.users) = some me)
    (hd : deliverableById db.deliverables deliverableId = some d)
    (hj : me.id ∈ roster d) (hc : canEditGrade d now = true)
    (hv : isValidGrade (some (clamp2Decimals x)) = true) :
    submitGrade db deliverableId (some x) newId now =
      (recordGrade db deliverableId me.id (clamp2Decimals x) newId now, SubmitOutcome.saved) := by
  unfold roster at hj
  simp [submitGrade, hme, hd, hj, hc, hv]

/-- Every call of `submitGrade` either leaves the database as it was, with an outcome
    other than the save, or is the write of a valid rounded value for the logged-in
    juror. -/
theorem submitGrade_cases (db : DB) (deliverableId : String) (value : JSNum)
    (newId : String) (now : Int) :
    ((submitGrade db deliverableId value newId now).1 = db ∧
      (submitGrade db deliverableId value newId now).2 ≠ SubmitOutcome.saved) ∨
    ∃ me d x, db.session.bind (userById db.users) = some me ∧
      deliverableById db.deliverables deliverableId = some d ∧
      me.id ∈ roster d ∧ canEditGrade d now = true ∧ value = some x ∧
      isValidGrade (some (clamp2Decimals x)) = true ∧
      submitGrade db deliverableId value newId now =
        (recordGrade db deliverableId me.id (clamp2Decimals x) newId now,
          SubmitOutcome.saved) := by
  cases hme : db.session.bind (userById db.users) with
  | none => left; simp [submitGrade_ignored db deliverableId value newId now (Or.inl hme)]
  | some me =>
    cases hd : deliverableById db.deliverables deliverableId with
    | none => left; simp [submitGrade_ignored db deliverableId value newId now (Or.inr hd)]
    | some d =>
      by_cases hj : me.id ∈ roster d
      · cases hc : canEditGrade d now with
        | false =>
          left; simp [submitGrade_expired db deliverableId value newId now me d hme hd hj hc]
        | true =>
          cases hv : isValidGrade (value.map clamp2Decimals) with
          | false =>
            left
            simp [submitGrade_invalid db deliverableId value newId now me d hme hd hj hc hv]
          | true =>
            cases value with
            | none => simp [isValidGrade] at hv
            | some x =>
              right
              exact ⟨me, d, x, rfl, rfl, hj, hc, rfl, hv,
                submitGrade_saved db deliverableId x newId now me d hme hd hj hc hv⟩
      · left; simp [submitGrade_notJuror db deliverableId value newId now me d hme hd hj]

theorem updateFirst_map {β : Type} (k : Grade → β) (p : Grade → Bool) (f : Grade → Grade)
    (hk : ∀ g, k (f g) = k g) : ∀ gs : List Grade, (updateFirst p f gs).map k = gs.map k
  | [] => rfl
  | g :: gs => by
    unfold updateFirst
    split
    · simp [hk]
    · simp [updateFirst_map k p f hk gs]

theorem length_updateFirst (p : Grade → Bool) (f : Grade → Grade) :
    ∀ gs : List Grade, (updateFirst p f gs).length = gs.length
  | [] => rfl
  | g :: gs => by
    unfold updateFirst
    split
    · simp
    · simp [length_updateFirst p f gs]

theorem recordGrade_new (db : DB) (deliverableId evaluatorId : String) (val : ℚ)
    (newId : String) (now : Int)
    (h : db.grades.find?
      (fun x => x.deliverableId == deliverableId && x.evaluatorId == evaluatorId) = none) :
    recordGrade db deliverableId evaluatorId val newId now =
      { db with grades := db.grades ++
          [{ id := newId, deliverableId := deliverableId, evaluatorId := evaluatorId,
             value := val, createdAt := now, updatedAt := now }] } := by
  simp [recordGrade, h]

theorem recordGrade_update (db : DB) (deliverableId evaluatorId : String) (val : ℚ)
    (newId : String) (now : Int) (g0 : Grade)
    (h : db.grades.find?
      (fun x => x.deliverableId == deliverableId && x.evaluatorId == evaluatorId) = some g0) :
    recordGrade db deliverableId evaluatorId val newId now =
      { db with
        grades :=
          updateFirst (fun x => x.deliverableId == deliverableId && x.evaluatorId == evaluatorId)
            (fun g => { g with value := val, updatedAt := now }) db.grades } := by
  simp [recordGrade, h]

theorem recordGrade_unique (db : DB) (deliverableId evaluatorId : String) (val : ℚ)
    (newId : String) (now : Int) (h : GradesUnique db.grades) :
    GradesUnique (recordGrade db deliverableId evaluatorId val newId now).grades := by
  cases hf : db.grades.find?
      (fun x => x.deliverableId == deliverableId && x.evaluatorId == evaluatorId) with
  | none =>
    rw [recordGrade_new _ _ _ _ _ _ hf]
    unfold GradesUnique at h ⊢
    simp only [List.map_append, List.map_cons, List.map_nil]
    rw [List.nodup_append]
    refine ⟨h, by simp, ?_⟩
    intro k hk1 hk2
    simp only [List.mem_singleton] at hk2
    obtain ⟨g, hg, hgk⟩ := List.mem_map.mp hk1
    have hno := List.find?_eq_none.mp hf g hg
    rw [hk2] at hgk
    simp only [gradeKey, Prod.mk.injEq] at hgk
    simp [hgk.1, hgk.2] at hno
  | some g0 =>
    rw [recordGrade_update _ _ _ _ _ _ g0 hf]
    unfold GradesUnique at h ⊢
    simp only
    rw [updateFirst_map gradeKey _ (fun g => { g with value := val, updatedAt := now })
      (fun _ => rfl)]
    exact h

theorem updateFirst_mem (p : Grade → Bool) (f : Grade → Grade) :
    ∀ (gs : List Grade) (g0 : Grade), gs.find? p = some g0 → f g0 ∈ updateFirst p f gs
  | [], g0, h => by simp at h
  | g :: gs, g0, h => by
    unfold updateFirst
    by_cases hp : p g
    · simp only [List.find?_cons, hp] at h
      have hg : g = g0 := Option.some.inj h
      subst hg
      simp [hp]
    · simp only [List.find?_cons, hp] at h
      simp only [hp]
      exact List.mem_cons_of_mem _ (updateFirst_mem p f gs g0 h)

/-- After the write the ledger holds a row for the pair with the value and the time of
    the call. -/
theorem recordGrade_mem (db : DB) (deliverableId evaluatorId : String) (val : ℚ)
    (newId : String) (now : Int) :
    ∃ g ∈ (recordGrade db deliverableId evaluatorId val newId now).grades,
      g.deliverableId = deliverableId ∧ g.evaluatorId = evaluatorId ∧ g.value = val ∧
      g.updatedAt = now := by
  cases hf : db.grades.find?
      (fun x => x.deliverableId == deliverableId && x.evaluatorId == evaluatorId) with
  | none =>
    rw [recordGrade_new _ _ _ _ _ _ hf]
    exact ⟨{ id := newId, deliverableId := deliverableId, evaluatorId := evaluatorId,
             value := val, createdAt := now, updatedAt := now }, by simp, rfl, rfl, rfl, rfl⟩
  | some g0 =>
    rw [recordGrade_update _ _ _ _ _ _ g0 hf]
    have hp := List.find?_some hf
    simp only [Bool.and_eq_true, beq_iff_eq] at hp
    exact ⟨_, updateFirst_mem _ (fun g => { g with value := val, updatedAt := now }) _ g0 hf,
      hp.1, hp.2, rfl, rfl⟩

theorem clamp2Decimals_9999 : clamp2Decimals (9999 / 1000) = 10 := by decide!

theorem clamp2Decimals_999 : clamp2Decimals (999 / 100) = 999 / 100 := by decide!

theorem clamp2Decimals_half : clamp2Decimals (1 / 2) = 1 / 2 := by decide!

/-! ## Lemmas on the shape of a top-up -/

theorem neededOf_eq (d : Deliverable) :
    neededOf d = max 3 d.jurySize - ((roster d).length : ℚ) := by
  unfold neededOf
  by_cases h : d.jurySize = 0
  · simp [h]
  · simp [h]

theorem nodup_ids_candidatesOf (toLowerCase : String → String) (db : DB) (d : Deliverable)
    (hids : (db.users.map (fun u => u.id)).Nodup) :
    ((candidatesOf toLowerCase db d).map (fun u => u.id)).Nodup := by
  have hsub : (candidatesOf toLowerCase db d).Sublist db.users := by
    unfold candidatesOf eligibleEvaluatorsForDeliverable
    split
    · simp
    · exact (List.filter_sublist _).trans (List.filter_sublist _)
  exact hids.sublist (hsub.map _)

theorem nodup_ids_addedUsers (toLowerCase : String → String) (db : DB) (d : Deliverable)
    (rnd : Nat → Unit01) (hids : (db.users.map (fun u => u.id)).Nodup) :
    ((addedUsers toLowerCase db d rnd).map (fun u => u.id)).Nodup := by
  unfold addedUsers
  split
  · simp
  · have hperm := (shuffle_perm rnd (candidatesOf toLowerCase db d)).map (fun u => u.id)
    have hnd := hperm.nodup_iff.mpr (nodup_ids_candidatesOf toLowerCase db d hids)
    exact hnd.sublist ((List.take_sublist _ _).map _)

/-- The number of appended users is the integer part of `min (max needed 0) |candidates|`. -/
theorem length_addedUsers_floor (toLowerCase : String → String) (db : DB) (d : Deliverable)
    (rnd : Nat → Unit01) :
    ((addedUsers toLowerCase db d rnd).length : ℚ) =
      ((⌊min (max (neededOf d) 0) ((candidatesOf toLowerCase db d).length : ℚ)⌋ : Int) : ℚ) := by
  by_cases hn : neededOf d ≤ 0
  · have hc : (0 : ℚ) ≤ ((candidatesOf toLowerCase db d).length : ℚ) := Nat.cast_nonneg _
    simp [addedUsers, hn, max_eq_right hn, min_eq_left hc]
  · rw [length_addedUsers toLowerCase db d rnd hn, max_eq_left (le_of_lt (not_le.mp hn))]

/-! ## Lemmas on the range of the final grade -/

theorem isValidGrade_some_iff (x : ℚ) :
    isValidGrade (some x) = true ↔ 1 ≤ x ∧ x ≤ 10 ∧ ∃ k : Int, x * 100 = (k : ℚ) := by
  unfold isValidGrade
  by_cases hr : x < 1 ∨ x > 10
  · simp only [hr, if_true]
    constructor
    · intro h; exact absurd h (by simp)
    · rintro ⟨h1, h2, -⟩
      rcases hr with h | h
      · exact absurd h1 (not_le.mpr h)
      · exact absurd h2 (not_le.mpr h)
  · have hr2 : 1 ≤ x ∧ x ≤ 10 := by
      constructor
      · exact not_lt.mp (fun h => hr (Or.inl h))
      · exact not_lt.mp (fun h => hr (Or.inr h))
    simp only [hr, if_false]
    by_cases hd : x.den = 1
    · simp only [hd, if_true, true_iff]
      refine ⟨hr2.1, hr2.2, x.num * 100, ?_⟩
      have hx : (x.num : ℚ) = x := Rat.coe_int_num_of_den_eq_one hd
      push_cast
      rw [hx]
    · simp only [hd, if_false, decide_eq_true_eq]
      constructor
      · intro h
        exact ⟨hr2.1, hr2.2, (x * 100).num, (Rat.coe_int_num_of_den_eq_one h).symm⟩
      · rintro ⟨-, -, k, hk⟩
        rw [hk]
        exact Rat.den_intCast k

theorem clamp2Decimals_hundredths (y : ℚ) :
    ∃ k : Int, clamp2Decimals y * 100 = (k : ℚ) :=
  ⟨mathRound (y * 100), by unfold clamp2Decimals; field_simp⟩

/-- Rounding to two decimals does not cross a bound that is itself a number of
    hundredths. -/
theorem clamp2Decimals_between (lo hi y : ℚ) (kl kh : Int)
    (hl : lo * 100 = (kl : ℚ)) (hh : hi * 100 = (kh : ℚ)) (h1 : lo ≤ y) (h2 : y ≤ hi) :
    lo ≤ clamp2Decimals y ∧ clamp2Decimals y ≤ hi := by
  have e1 : kl ≤ mathRound (y * 100) := by
    unfold mathRound
    rw [Int.le_floor, ← hl]
    linarith
  have e2 : mathRound (y * 100) ≤ kh := by
    have : mathRound (y * 100) < kh + 1 := by
      unfold mathRound
      rw [Int.floor_lt]
      push_cast
      rw [← hh]
      linarith
    omega
  have e1q : (kl : ℚ) ≤ (mathRound (y * 100) : ℚ) := by exact_mod_cast e1
  have e2q : (mathRound (y * 100) : ℚ) ≤ (kh : ℚ) := by exact_mod_cast e2
  unfold clamp2Decimals
  constructor
  · rw [le_div_iff₀ (by norm_num : (0 : ℚ) < 100), hl]; exact e1q
  · rw [div_le_iff₀ (by norm_num : (0 : ℚ) < 100), hh]; exact e2q

theorem average_between (mid : List ℚ) (lo hi : ℚ) (hne : mid ≠ [])
    (h : ∀ x ∈ mid, lo ≤ x ∧ x ≤ hi) :
    lo ≤ mid.sum / (mid.length : ℚ) ∧ mid.sum / (mid.length : ℚ) ≤ hi := by
  have hpos : (0 : ℚ) < (mid.length : ℚ) := by
    have : 0 < mid.length := List.length_pos.mpr hne
    exact_mod_cast this
  have h1 := List.card_nsmul_le_sum mid lo (fun x hx => (h x hx).1)
  have h2 := List.sum_le_card_nsmul mid hi (fun x hx => (h x hx).2)
  rw [nsmul_eq_mul] at h1 h2
  constructor
  · rw [le_div_iff₀ hpos]; linarith
  · rw [div_le_iff₀ hpos]; linarith

theorem getElem?_before_last (a b : ℚ) (mid : List ℚ) (hne : mid ≠ []) :
    (a :: (mid ++ [b]))[mid.length + 2 - 2]? = some (mid.getLast hne) := by
  rcases List.eq_nil_or_concat mid with h | ⟨init, h, rfl⟩
  · exact absurd h hne
  · simp
    rw [List.getElem_append_right (Nat.le_refl _)]
    simp

/-- For at least three values the sorted list is a first element, a non-empty middle
    part that starts with the second-smallest and ends with the second-largest value,
    and a last element; the final grade is the rounded mean of the middle part. -/
theorem computeFinalGradeFromValues_middle (values : List ℚ) (hlen : 3 ≤ values.length) :
    ∃ (a b lo hi : ℚ) (mid : List ℚ),
      values.insertionSort (fun a b => a ≤ b) = a :: (mid ++ [b]) ∧ mid ≠ [] ∧
      computeFinalGradeFromValues values =
        some (clamp2Decimals (mid.sum / (mid.length : ℚ))) ∧
      secondSmallest values = some lo ∧ secondLargest values = some hi ∧
      lo ∈ mid ∧ hi ∈ mid ∧ a ≤ lo ∧ hi ≤ b ∧ (∀ x ∈ mid, lo ≤ x ∧ x ≤ hi) := by
  have hperm := List.perm_insertionSort (fun a b : ℚ => a ≤ b) values
  have hsorted := List.sorted_insertionSort (fun a b : ℚ => a ≤ b) values
  have hlen2 : 2 ≤ (values.insertionSort (fun a b : ℚ => a ≤ b)).length := by
    rw [hperm.length_eq]; omega
  obtain ⟨a, mid, b, hs⟩ := exists_first_mid_last _ hlen2
  have hmidlen : mid.length + 2 = values.length := by
    rw [← hperm.length_eq, hs]; simp
  have hne : mid ≠ [] := by
    intro h0
    rw [h0] at hmidlen
    simp at hmidlen
    omega
  have hcomp : computeFinalGradeFromValues values =
      some (clamp2Decimals (mid.sum / (mid.length : ℚ))) := by
    unfold computeFinalGradeFromValues
    rw [if_neg (by omega)]
    simp only [hs, slice_first_mid_last, foldl_add_eq_sum]
  have hpw : (a :: (mid ++ [b])).Pairwise (fun a b : ℚ => a ≤ b) := by
    rw [← hs]; exact hsorted
  have hpwmid : (mid ++ [b]).Pairwise (fun a b : ℚ => a ≤ b) := (List.pairwise_cons.mp hpw).2
  have ha : ∀ x ∈ mid, a ≤ x := fun x hx =>
    (List.pairwise_cons.mp hpw).1 x (List.mem_append_left _ hx)
  have hb : ∀ x ∈ mid, x ≤ b := fun x hx =>
    (List.pairwise_append.mp hpwmid).2.2 x hx b (by simp)
  have hpwm : mid.Pairwise (fun a b : ℚ => a ≤ b) := (List.pairwise_append.mp hpwmid).1
  -- the two ends of the middle part
  obtain ⟨lo, rest, hlo⟩ := List.exists_cons_of_ne_nil hne
  have hhi : mid = mid.dropLast ++ [mid.getLast hne] := (List.dropLast_append_getLast hne).symm
  refine ⟨a, b, lo, mid.getLast hne, mid, hs, hne, hcomp, ?_, ?_, ?_, List.getLast_mem hne,
    ?_, hb _ (List.getLast_mem hne), ?_⟩
  · unfold secondSmallest
    rw [hs, hlo]; simp
  · unfold secondLargest
    rw [hs, ← hmidlen]
    exact getElem?_before_last a b mid hne
  · rw [hlo]; exact List.mem_cons_self _ _
  · exact ha lo (by rw [hlo]; exact List.mem_cons_self _ _)
  · intro x hx
    constructor
    · rw [hlo] at hx hpwm
      rcases List.mem_cons.mp hx with h | h
      · rw [h]
      · exact (List.pairwise_cons.mp hpwm).1 x h
    · rw [hhi] at hx hpwm
      rcases List.mem_append.mp hx with h | h
      · exact (List.pairwise_append.mp hpwm).2.2 x h _ (by simp)
      · simp at h; rw [h]

theorem computeFinalGradeFromValues_perm (values values' : List ℚ) (h : values'.Perm values) :
    computeFinalGradeFromValues values' = computeFinalGradeFromValues values := by
  have hs : values'.insertionSort (fun a b : ℚ => a ≤ b) =
      values.insertionSort (fun a b : ℚ => a ≤ b) :=
    List.eq_of_perm_of_sorted
      (((List.perm_insertionSort _ values').trans h).trans (List.perm_insertionSort _ values).symm)
      (List.sorted_insertionSort _ values') (List.sorted_insertionSort _ values)
  unfold computeFinalGradeFromValues
  rw [hs, h.length_eq]

/-- The in-place update rewrites the first row that satisfies `p` and no other row. -/
theorem updateFirst_split (p : Grade → Bool) (f : Grade → Grade) (g : Grade)
    (post : List Grade) : ∀ pre : List Grade, (∀ y ∈ pre, p y = false) → p g = true →
      updateFirst p f (pre ++ g :: post) = pre ++ f g :: post
  | [], _, hg => by simp [updateFirst, hg]
  | y :: pre, hpre, hg => by
    have hy : p y = false := hpre y (List.mem_cons_self _ _)
    have ih := updateFirst_split p f g post pre
      (fun z hz => hpre z (List.mem_cons_of_mem _ hz)) hg
    simp [updateFirst, hy, ih]

/-- What the write does to the ledger: the first row of the pair gets the new value and
    time and every other row is kept, or, when the pair has no row, one row is added at
    the end. -/
theorem recordGrade_grades (db : DB) (deliverableId evaluatorId : String) (val : ℚ)
    (newId : String) (now : Int) :
    (∀ pre g post, db.grades = pre ++ g :: post →
      (∀ y ∈ pre, ¬ (y.deliverableId = deliverableId ∧ y.evaluatorId = evaluatorId)) →
      g.deliverableId = deliverableId → g.evaluatorId = evaluatorId →
      (recordGrade db deliverableId evaluatorId val newId now).grades =
        pre ++ { g with value := val, updatedAt := now } :: post) ∧
    ((∀ y ∈ db.grades, ¬ (y.deliverableId = deliverableId ∧ y.evaluatorId = evaluatorId)) →
      (recordGrade db deliverableId evaluatorId val newId now).grades =
        db.grades ++ [{ id := newId, deliverableId := deliverableId, evaluatorId := evaluatorId,
                         value := val, createdAt := now, updatedAt := now }]) := by
  constructor
  · intro pre g post hsplit hpre hgd hge
    have hpg : (fun x : Grade => x.deliverableId == deliverableId && x.evaluatorId == evaluatorId) g
        = true := by simp [hgd, hge]
    have hpp : ∀ y ∈ pre,
        (fun x : Grade => x.deliverableId == deliverableId && x.evaluatorId == evaluatorId) y
          = false := by
      intro y hy
      have := hpre y hy
      by_cases h1 : y.deliverableId = deliverableId
      · have h2 : y.evaluatorId ≠ evaluatorId := fun h2 => this ⟨h1, h2⟩
        simp [h1, h2]
      · simp [h1]
    cases hf : db.grades.find?
        (fun x => x.deliverableId == deliverableId && x.evaluatorId == evaluatorId) with
    | none =>
      have hno := List.find?_eq_none.mp hf g (by rw [hsplit]; simp)
      exact absurd hpg hno
    | some g0 =>
      rw [recordGrade_update _ _ _ _ _ _ g0 hf]
      show updateFirst _ _ db.grades = _
      rw [hsplit]
      exact updateFirst_split _ _ g post pre hpp hpg
  · intro hnone
    cases hf : db.grades.find?
        (fun x => x.deliverableId == deliverableId && x.evaluatorId == evaluatorId) with
    | none => rw [recordGrade_new _ _ _ _ _ _ hf]
    | some g0 =>
      have hmem := List.mem_of_find?_eq_some hf
      have hp := List.find?_some hf
      simp only [Bool.and_eq_true, beq_iff_eq] at hp
      exact absurd hp (hnone g0 hmem)

/-! ## Lemmas on double-precision arithmetic -/

namespace Binary64

theorem roundHalfEven_intCast (z : Int) : roundHalfEven (z : ℚ) = z := by
  simp [roundHalfEven]

theorem floorLog2Aux_eq : ∀ (fuel n : Nat), n ≤ fuel → floorLog2Aux fuel n = Nat.log2 n
  | 0, n, h => by
    have hn : n = 0 := Nat.le_zero.mp h
    subst hn
    simp [floorLog2Aux]
  | fuel + 1, n, h => by
    unfold floorLog2Aux
    rw [Nat.log2]
    by_cases h2 : 2 ≤ n
    · have hlt : n / 2 ≤ fuel := by omega
      simp only [h2, if_true, ge_iff_le]
      rw [floorLog2Aux_eq fuel (n / 2) hlt]
    · simp only [h2, if_false, ge_iff_le]

theorem floorLog2_eq (n : Nat) : floorLog2 n = Nat.log2 n :=
  floorLog2Aux_eq n n (Nat.le_refl n)

/-- The binade of a non-zero number is not above it. -/
theorem two_zpow_binade_le (x : ℚ) (hx : x ≠ 0) : (2 : ℚ) ^ binade x ≤ |x| := by
  unfold binade
  simp only [floorLog2_eq]
  split
  · assumption
  · have hnum : x.num.natAbs ≠ 0 := by
      simpa using Rat.num_ne_zero.mpr hx
    have hden : x.den ≠ 0 := x.den_nz
    have h1 : (2 : ℚ) ^ (Nat.log2 x.num.natAbs) ≤ (x.num.natAbs : ℚ) := by
      exact_mod_cast Nat.log2_self_le hnum
    have h2 : (x.den : ℚ) < (2 : ℚ) ^ (Nat.log2 x.den + 1) := by
      exact_mod_cast Nat.lt_log2_self
    have habs : |x| = (x.num.natAbs : ℚ) / (x.den : ℚ) := by
      rw [Rat.abs_def, Rat.divInt_eq_div]
      push_cast
      rw [Nat.cast_natAbs, Int.cast_abs]
    have hdpos : (0 : ℚ) < (x.den : ℚ) := by exact_mod_cast x.den_pos
    have e : (2 : ℚ) ^ ((Nat.log2 x.num.natAbs : Int) - (Nat.log2 x.den : Int) - 1) =
        (2 : ℚ) ^ (Nat.log2 x.num.natAbs) / (2 : ℚ) ^ (Nat.log2 x.den + 1) := by
      have : ((Nat.log2 x.num.natAbs : Int) - (Nat.log2 x.den : Int) - 1) =
          ((Nat.log2 x.num.natAbs : Nat) : Int) - ((Nat.log2 x.den + 1 : Nat) : Int) := by
        push_cast; ring
      rw [this, zpow_natCast_sub_natCast₀ (by norm_num : (2 : ℚ) ≠ 0)]
    rw [e, habs]
    have hpow : (0 : ℚ) < (2 : ℚ) ^ (Nat.log2 x.den + 1) := by positivity
    rw [div_le_div_iff₀ hpow hdpos]
    have h3 : (2 : ℚ) ^ (Nat.log2 x.num.natAbs) * (x.den : ℚ) ≤
        (2 : ℚ) ^ (Nat.log2 x.num.natAbs) * (2 : ℚ) ^ (Nat.log2 x.den + 1) :=
      mul_le_mul_of_nonneg_left (le_of_lt h2) (by positivity)
    have h4 : (2 : ℚ) ^ (Nat.log2 x.num.natAbs) * (2 : ℚ) ^ (Nat.log2 x.den + 1) ≤
        (x.num.natAbs : ℚ) * (2 : ℚ) ^ (Nat.log2 x.den + 1) :=
      mul_le_mul_of_nonneg_right h1 (le_of_lt hpow)
    exact le_trans h3 h4

/-- An integer below `2 ^ 53` in absolute value is a double: it is returned unrounded. -/
theorem roundToDouble_intCast (z : Int) (hz : |(z : ℚ)| < (2 : ℚ) ^ (53 : Nat)) :
    roundToDouble (z : ℚ) = (z : ℚ) := by
  unfold roundToDouble
  by_cases h0 : (z : ℚ) = 0
  · simp [h0]
  · rw [if_neg h0]
    have hb : binade (z : ℚ) < 53 := by
      have h1 := two_zpow_binade_le (z : ℚ) h0
      have h2 : (2 : ℚ) ^ binade (z : ℚ) < (2 : ℚ) ^ ((53 : Nat) : Int) := by
        rw [zpow_natCast]; exact lt_of_le_of_lt h1 hz
      exact (zpow_lt_zpow_iff_right₀ (by norm_num : (1 : ℚ) < 2)).mp h2
    have hu : ulpExponent (z : ℚ) ≤ 0 := by
      unfold ulpExponent
      have : max (binade (z : ℚ)) (-1022) ≤ 52 := max_le (by omega) (by norm_num)
      omega
    obtain ⟨k, hk⟩ : ∃ k : Nat, ulpExponent (z : ℚ) = -(k : Int) :=
      ⟨(-ulpExponent (z : ℚ)).toNat, by omega⟩
    rw [hk, zpow_neg, zpow_natCast]
    have e : (z : ℚ) / ((2 : ℚ) ^ k)⁻¹ = ((z * 2 ^ k : Int) : ℚ) := by
      push_cast
      rw [div_inv_eq_mul]
    rw [e, roundHalfEven_intCast]
    push_cast
    have hpos : (2 : ℚ) ^ k ≠ 0 := by positivity
    field_simp

theorem ofExact_intCast (z : Int) (hz : |(z : ℚ)| < (2 : ℚ) ^ (53 : Nat)) :
    ofExact (z : ℚ) = F64.fin (z : ℚ) := by
  have hbig : (2 : ℚ) ^ (53 : Nat) ≤ (2 : ℚ) ^ (1024 : Nat) :=
    pow_le_pow_right₀ (by norm_num) (by norm_num)
  have habs := abs_lt.mp hz
  unfold ofExact
  rw [roundToDouble_intCast z hz]
  rw [if_neg (by linarith), if_neg (by linarith)]

theorem submitGrade_expired_double (db : DB) (deliverableId : String) (value : F64)
    (newId : String) (now : Int) (me : User) (d : Deliverable)
    (hme : db.session.bind (userById db.users) = some me)
    (hd : deliverableById db.deliverables deliverableId = some d)
    (hj : me.id ∈ roster d) (hc : canEditGrade d now = false) :
    submitGrade db deliverableId value newId now = (db, SubmitOutcome.editingExpired) := by
  unfold roster at hj
  simp [submitGrade, hme, hd, hj, hc]

theorem submitGrade_saved_double (db : DB) (deliverableId : String) (value : F64)
    (newId : String) (now : Int) (me : User) (d : Deliverable)
    (hme : db.session.bind (userById db.users) = some me)
    (hd : deliverableById db.deliverables deliverableId = some d)
    (hj : me.id ∈ roster d) (hc : canEditGrade d now = true)
    (hv : isValidGrade (clamp2Decimals value) = true) :
    ∃ v, clamp2Decimals value = F64.fin v ∧
      submitGrade db deliverableId value newId now =
        (recordGrade db deliverableId me.id v newId now, SubmitOutcome.saved) := by
  unfold roster at hj
  cases hval : clamp2Decimals value with
  | fin v =>
    refine ⟨v, rfl, ?_⟩
    rw [hval] at hv
    simp [submitGrade, hme, hd, hj, hc, hval, hv]
  | posInf => rw [hval] at hv; simp [isValidGrade] at hv
  | negInf => rw [hval] at hv; simp [isValidGrade] at hv
  | nan => rw [hval] at hv; simp [isValidGrade] at hv

/-- For a window of a whole number of minutes the end of the window is computed without
    rounding. -/
theorem windowEnd_intCast (d : Deliverable) (k : Int) (hk : d.editWindowMin = (k : ℚ))
    (h1 : |(k : ℚ)| * 60000 < (2 : ℚ) ^ (53 : Nat))
    (h2 : |(d.dueAt : ℚ) + (k : ℚ) * 60000| < (2 : ℚ) ^ (53 : Nat)) :
    windowEnd d = F64.fin ((d.dueAt : ℚ) + d.editWindowMin * 60000) := by
  have habs : (0 : ℚ) ≤ |(k : ℚ)| := abs_nonneg _
  have e60 : |((k * 60 : Int) : ℚ)| < (2 : ℚ) ^ (53 : Nat) := by
    push_cast
    rw [abs_mul, abs_of_pos (by norm_num : (0 : ℚ) < 60)]
    linarith
  have e60000 : |((k * 60 * 1000 : Int) : ℚ)| < (2 : ℚ) ^ (53 : Nat) := by
    push_cast
    rw [abs_mul, abs_mul, abs_of_pos (by norm_num : (0 : ℚ) < 60),
      abs_of_pos (by norm_num : (0 : ℚ) < 1000)]
    linarith
  have eend : |((d.dueAt + k * 60 * 1000 : Int) : ℚ)| < (2 : ℚ) ^ (53 : Nat) := by
    push_cast
    have : (d.dueAt : ℚ) + (k : ℚ) * 60 * 1000 = (d.dueAt : ℚ) + (k : ℚ) * 60000 := by ring
    rw [this]; exact h2
  have s1 : scale (F64.fin (k : ℚ)) 60 = F64.fin ((k * 60 : Int) : ℚ) := by
    have := ofExact_intCast (k * 60) e60
    simp only [scale]
    rw [← this]; push_cast; rfl
  have s2 : scale (F64.fin ((k * 60 : Int) : ℚ)) 1000 = F64.fin ((k * 60 * 1000 : Int) : ℚ) := by
    have := ofExact_intCast (k * 60 * 1000) e60000
    simp only [scale]
    rw [← this]; push_cast; rfl
  have s3 : add (F64.fin (d.dueAt : ℚ)) (F64.fin ((k * 60 * 1000 : Int) : ℚ)) =
      F64.fin ((d.dueAt + k * 60 * 1000 : Int) : ℚ) := by
    have := ofExact_intCast (d.dueAt + k * 60 * 1000) eend
    simp only [add]
    rw [← this]; push_cast; rfl
  unfold windowEnd
  rw [hk, s1, s2, s3]
  push_cast
  congr 1
  ring

/-- In doubles too, for at least three values the final grade is computed from the
    middle part of the sorted list: the rounded quotient of its sum by its length. -/
theorem computeFinalGradeFromValues_middle_double (values : List ℚ)
    (hlen : 3 ≤ values.length) (a b : ℚ) (mid : List ℚ)
    (hs : values.insertionSort (fun a b => a ≤ b) = a :: (mid ++ [b])) :
    computeFinalGradeFromValues values =
      some (clamp2Decimals (divide (mid.foldl (fun s x => add s (F64.fin x)) (F64.fin 0))
        (mid.length : ℚ))) := by
  unfold computeFinalGradeFromValues
  rw [if_neg (by omega)]
  simp only [hs, slice_first_mid_last]

/-- Every call of `submitGrade` either leaves the database as it was, with an outcome
    other than the save, or is the write of the rounded value, a valid grade, for the
    logged-in juror. -/
theorem submitGrade_cases_double (db : DB) (deliverableId : String) (value : F64)
    (newId : String) (now : Int) :
    ((submitGrade db deliverableId value newId now).1 = db ∧
      (submitGrade db deliverableId value newId now).2 ≠ SubmitOutcome.saved) ∨
    ∃ me d v, db.session.bind (userById db.users) = some me ∧
      deliverableById db.deliverables deliverableId = some d ∧
      me.id ∈ roster d ∧ canEditGrade d now = true ∧ clamp2Decimals value = F64.fin v ∧
      isValidGrade (F64.fin v) = true ∧
      submitGrade db deliverableId value newId now =
        (recordGrade db deliverableId me.id v newId now, SubmitOutcome.saved) := by
  cases hme : db.session.bind (userById db.users) with
  | none => left; simp [submitGrade, hme]
  | some me =>
    cases hd : deliverableById db.deliverables deliverableId with
    | none => left; simp [submitGrade, hme, hd]
    | some d =>
      by_cases hj : me.id ∈ roster d
      · cases hc : canEditGrade d now with
        | false =>
          left
          simp [submitGrade_expired_double db deliverableId value newId now me d hme hd hj hc]
        | true =>
          cases hv : isValidGrade (clamp2Decimals value) with
          | false =>
            left
            unfold roster at hj
            simp [submitGrade, hme, hd, hj, hc, hv]
          | true =>
            right
            obtain ⟨v, hval, hs⟩ :=
              submitGrade_saved_double db deliverableId value newId now me d hme hd hj hc hv
            rw [hval] at hv
            exact ⟨me, d, v, rfl, rfl, hj, hc, hval, hv, hs⟩
      · left
        unfold roster at hj
        simp [submitGrade, hme, hd, hj]

theorem submitGrade_unique_double (db : DB) (deliverableId : String) (value : F64)
    (newId : String) (now : Int) (h : GradesUnique db.grades) :
    GradesUnique (submitGrade db deliverableId value newId now).1.grades := by
  rcases submitGrade_cases_double db deliverableId value newId now with
    ⟨h1, -⟩ | ⟨me, d, v, -, -, -, -, -, -, h2⟩
  · rw [h1]; exact h
  · rw [h2]; exact recordGrade_unique db deliverableId me.id v newId now h

theorem submitAll_unique_double : ∀ (calls : List Submission) (db : DB),
    GradesUnique db.grades → GradesUnique (submitAll db calls).grades
  | [], _, h => h
  | c :: cs, db, h => by
    unfold submitAll
    exact submitAll_unique_double cs _ (submitGrade_unique_double _ _ _ _ _ h)

end Binary64

/-! ## Claims -/

/-- C1: jury/team separation is kept by `assignJuryIfDue`. When user ids are pairwise
    distinct, the project of the deliverable resolves and no team member's id is on the
    roster, then after the call, at any time and for any random stream, the deliverable
    still belongs to the same project and no team member's id is on its roster. -/
theorem assignJuryIfDue_keeps_team_off_jury (toLowerCase : String → String) (db : DB)
    (d : Deliverable) (p : Project) (now : Int) (rnd : Nat → Unit01)
    (hids : (db.users.map (fun u => u.id)).Nodup)
    (hp : projectById db.projects d.projectId = some p)
    (hsep : ∀ u ∈ db.users, isUserInTeam toLowerCase p u.username = true → u.id ∉ roster d) :
    (assignJuryIfDue toLowerCase db d now rnd).projectId = d.projectId ∧
    ∀ u ∈ db.users, isUserInTeam toLowerCase p u.username = true →
      u.id ∉ roster (assignJuryIfDue toLowerCase db d now rnd) := by
  constructor
  · by_cases h : now < d.dueAt
    · rw [assignJuryIfDue_early _ _ _ _ _ h]
    · rw [assignJuryIfDue_due _ _ _ _ _ h]
  · intro u hu hteam
    rw [roster_assignJuryIfDue]
    split
    · exact hsep u hu hteam
    · intro hmem
      rcases List.mem_append.mp hmem with h1 | h2
      · exact hsep u hu hteam h1
      · obtain ⟨v, hv, hvid⟩ := List.mem_map.mp h2
        have hc := (mem_candidatesOf _ _ _ _).mp (mem_addedUsers _ _ _ _ _ hv)
        have he := (mem_eligible toLowerCase db d p hp v).mp hc.1
        have huv : v = u :=
          List.inj_on_of_nodup_map hids he.1 hu hvid
        subst huv
        rw [hteam] at he
        exact absurd he.2.2 (by simp)

/-- Witness of C1 on the sample database at time `2000`. -/
theorem assignJuryIfDue_keeps_team_off_jury_witness :
    (sampleDB.users.map (fun u => u.id)).Nodup ∧
    projectById sampleDB.projects sampleDeliverable.projectId = some sampleProject ∧
    (∀ u ∈ sampleDB.users, isUserInTeam asciiLower sampleProject u.username = true →
      u.id ∉ roster sampleDeliverable) ∧
    ((assignJuryIfDue asciiLower sampleDB sampleDeliverable 2000 rndZero).projectId =
        sampleDeliverable.projectId ∧
      ∀ u ∈ sampleDB.users, isUserInTeam asciiLower sampleProject u.username = true →
        u.id ∉ roster (assignJuryIfDue asciiLower sampleDB sampleDeliverable 2000 rndZero)) :=
  ⟨by decide, by decide, by decide,
    assignJuryIfDue_keeps_team_off_jury asciiLower sampleDB sampleDeliverable sampleProject
      2000 rndZero (by decide) (by decide) (by decide)⟩

/-- C3: before the due time `assignJuryIfDue` does nothing. For a current time below
    `dueAt` the deliverable after the call is the deliverable before it, roster and
    every other field, and a database holding that deliverable is left as it was. -/
theorem assignJuryIfDue_noop_before_due (toLowerCase : String → String) (db : DB)
    (d : Deliverable) (now : Int) (rnd : Nat → Unit01) (h : now < d.dueAt) :
    assignJuryIfDue toLowerCase db d now rnd = d ∧
    ∀ i : Nat, db.deliverables[i]? = some d → assignJuryAt toLowerCase db i now rnd = db := by
  refine ⟨assignJuryIfDue_early toLowerCase db d now rnd h, ?_⟩
  intro i hi
  unfold assignJuryAt
  rw [hi]
  simp only [assignJuryIfDue_early toLowerCase db d now rnd h]
  have hset : db.deliverables.set i d = db.deliverables := by
    apply List.ext_getElem?
    intro n
    by_cases hn : i = n
    · subst hn
      rw [List.getElem?_set]
      simp [hi]
      by_contra hlt
      have hnone := List.getElem?_eq_none_iff.mpr (Nat.le_of_not_lt hlt)
      rw [hnone] at hi
      exact absurd hi (by simp)
    · rw [List.getElem?_set_ne hn]
  rw [hset]

/-- Witness of C3 on the sample database at time `999`, one instant before the due time. -/
theorem assignJuryIfDue_noop_before_due_witness :
    (999 : Int) < sampleDeliverable.dueAt ∧
    (assignJuryIfDue asciiLower sampleDB sampleDeliverable 999 rndZero = sampleDeliverable ∧
      ∀ i : Nat, sampleDB.deliverables[i]? = some sampleDeliverable →
        assignJuryAt asciiLower sampleDB i 999 rndZero = sampleDB) :=
  ⟨by decide, assignJuryIfDue_noop_before_due asciiLower sampleDB sampleDeliverable 999 rndZero
    (by decide)⟩

/-- C7: jury assignment is monotonic. For every database, deliverable, current time and
    random stream, the roster before `assignJuryIfDue` is a prefix of the roster after
    it, so no juror is removed or moved and the roster does not get shorter. -/
theorem assignJuryIfDue_roster_monotone (toLowerCase : String → String) (db : DB)
    (d : Deliverable) (now : Int) (rnd : Nat → Unit01) :
    roster d <+: roster (assignJuryIfDue toLowerCase db d now rnd) ∧
    (roster d).length ≤ (roster (assignJuryIfDue toLowerCase db d now rnd)).length := by
  have hp : roster d <+: roster (assignJuryIfDue toLowerCase db d now rnd) := by
    rw [roster_assignJuryIfDue]
    split
    · exact List.prefix_refl _
    · exact List.prefix_append _ _
  exact ⟨hp, hp.length_le⟩

/-- C8: the top-up is idempotent after one due call. For a time `t1` at or after
    `dueAt`, a later time `t2` and a database with the same users and projects, calling
    `assignJuryIfDue` again on the deliverable that the first call produced returns that
    deliverable unchanged, for any two random streams. -/
theorem assignJuryIfDue_idempotent_after_due (toLowerCase : String → String) (db db' : DB)
    (d : Deliverable) (t1 t2 : Int) (rnd1 rnd2 : Nat → Unit01)
    (h1 : d.dueAt ≤ t1) (h2 : t1 ≤ t2)
    (hu : db'.users = db.users) (hp : db'.projects = db.projects) :
    assignJuryIfDue toLowerCase db' (assignJuryIfDue toLowerCase db d t1 rnd1) t2 rnd2 =
      assignJuryIfDue toLowerCase db d t1 rnd1 := by
  have hd1 : ¬ t1 < d.dueAt := not_lt.mpr h1
  rw [assignJuryIfDue_due toLowerCase db d t1 rnd1 hd1]
  have hd2 : ¬ t2 < ({ d with
      juryUserIds := some (roster d ++ (addedUsers toLowerCase db d rnd1).map (fun u => u.id)) } :
      Deliverable).dueAt := not_lt.mpr (le_trans h1 h2)
  rw [assignJuryIfDue_due toLowerCase db' _ t2 rnd2 hd2,
    addedUsers_after_due toLowerCase db db' d rnd1 rnd2 hu hp]
  simp [roster]

/-- Witness of C8: a jury of five is asked for and only three students are outside the
    team; the first due call gives a roster of three and a later call leaves it as it is. -/
theorem assignJuryIfDue_idempotent_after_due_witness :
    (sampleDeliverable.dueAt ≤ 1000 ∧ (1000 : Int) ≤ 6000 ∧
      sampleDB.users = sampleDB.users ∧ sampleDB.projects = sampleDB.projects) ∧
    roster (assignJuryIfDue asciiLower sampleDB sampleDeliverable 1000 rndZero) =
      ["u4", "u5", "u3"] ∧
    assignJuryIfDue asciiLower sampleDB
        (assignJuryIfDue asciiLower sampleDB sampleDeliverable 1000 rndZero) 6000 rndHalf =
      assignJuryIfDue asciiLower sampleDB sampleDeliverable 1000 rndZero :=
  ⟨⟨by decide, by decide, rfl, rfl⟩, by decide!,
    assignJuryIfDue_idempotent_after_due asciiLower sampleDB sampleDB sampleDeliverable
      1000 6000 rndZero rndHalf (by decide) (by decide) rfl rfl⟩

/-- C4: `submitGrade` keeps at most one grade row per pair of deliverable and evaluator.
    From a ledger with that property, one call and any sequence of calls give a ledger
    with it, and from an empty ledger every sequence of calls does. A call that saves
    when the logged-in user has a row for the deliverable rewrites the value and the
    update time of the first such row and leaves every other row, and the number, order,
    ids and creation times of the rows, as they were; a call that saves when there is no
    such row adds exactly one row at the end; a call that does not save leaves the
    ledger as it was. -/
theorem submitGrade_preserves_unique (db : DB) (deliverableId : String)
    (value : Binary64.F64) (newId : String) (now : Int) (h : GradesUnique db.grades) :
    GradesUnique (Binary64.submitGrade db deliverableId value newId now).1.grades ∧
    (∀ me, db.session.bind (userById db.users) = some me →
      (∃ g ∈ db.grades, g.deliverableId = deliverableId ∧ g.evaluatorId = me.id) →
      (Binary64.submitGrade db deliverableId value newId now).1.grades.length =
        db.grades.length ∧
      (Binary64.submitGrade db deliverableId value newId now).1.grades.map
          (fun g => (g.id, g.deliverableId, g.evaluatorId, g.createdAt)) =
        db.grades.map (fun g => (g.id, g.deliverableId, g.evaluatorId, g.createdAt))) ∧
    (∀ me v, db.session.bind (userById db.users) = some me →
      Binary64.clamp2Decimals value = Binary64.F64.fin v →
      (Binary64.submitGrade db deliverableId value newId now).2 = SubmitOutcome.saved →
      ∀ pre g post, db.grades = pre ++ g :: post →
        (∀ y ∈ pre, ¬ (y.deliverableId = deliverableId ∧ y.evaluatorId = me.id)) →
        g.deliverableId = deliverableId → g.evaluatorId = me.id →
        (Binary64.submitGrade db deliverableId value newId now).1.grades =
          pre ++ { g with value := v, updatedAt := now } :: post) ∧
    (∀ me v, db.session.bind (userById db.users) = some me →
      Binary64.clamp2Decimals value = Binary64.F64.fin v →
      (Binary64.submitGrade db deliverableId value newId now).2 = SubmitOutcome.saved →
      (∀ y ∈ db.grades, ¬ (y.deliverableId = deliverableId ∧ y.evaluatorId = me.id)) →
      (Binary64.submitGrade db deliverableId value newId now).1.grades =
        db.grades ++ [{ id := newId, deliverableId := deliverableId, evaluatorId := me.id,
                         value := v, createdAt := now, updatedAt := now }]) ∧
    ((Binary64.submitGrade db deliverableId value newId now).2 ≠ SubmitOutcome.saved →
      (Binary64.submitGrade db deliverableId value newId now).1.grades = db.grades) ∧
    (∀ calls : List Binary64.Submission,
      GradesUnique (Binary64.submitAll db calls).grades) ∧
    (∀ (db0 : DB) (calls : List Binary64.Submission), db0.grades = [] →
      GradesUnique (Binary64.submitAll db0 calls).grades) := by
  have hsaved : ∀ me v, db.session.bind (userById db.users) = some me →
      Binary64.clamp2Decimals value = Binary64.F64.fin v →
      (Binary64.submitGrade db deliverableId value newId now).2 = SubmitOutcome.saved →
      (Binary64.submitGrade db deliverableId value newId now).1 =
        recordGrade db deliverableId me.id v newId now := by
    intro me v hme hv hs
    rcases Binary64.submitGrade_cases_double db deliverableId value newId now with
      ⟨-, h1⟩ | ⟨me', d, v', hme', -, -, -, hv', -, h2⟩
    · exact absurd hs h1
    · rw [hme] at hme'
      rw [hv] at hv'
      have e1 : me = me' := Option.some.inj hme'
      have e2 : v = v' := Binary64.F64.fin.inj hv'
      subst e1 e2
      rw [h2]
  refine ⟨Binary64.submitGrade_unique_double db deliverableId value newId now h, ?_, ?_, ?_, ?_,
    fun calls => Binary64.submitAll_unique_double calls db h, ?_⟩
  · intro me hme ⟨g, hg, hgd, hge⟩
    rcases Binary64.submitGrade_cases_double db deliverableId value newId now with
      ⟨h1, -⟩ | ⟨me', d, v, hme', -, -, -, -, -, h2⟩
    · rw [h1]; exact ⟨rfl, rfl⟩
    · have hmm : me' = me := by
        rw [hme] at hme'
        exact (Option.some.inj hme').symm
      subst hmm
      rw [h2]
      cases hf : db.grades.find?
          (fun x => x.deliverableId == deliverableId && x.evaluatorId == me'.id) with
      | none =>
        have hno := List.find?_eq_none.mp hf g hg
        simp [hgd, hge] at hno
      | some g0 =>
        rw [recordGrade_update _ _ _ _ _ _ g0 hf]
        exact ⟨length_updateFirst _ _ _,
          updateFirst_map (fun g : Grade => (g.id, g.deliverableId, g.evaluatorId, g.createdAt)) _
            (fun g => { g with value := v, updatedAt := now }) (fun _ => rfl) _⟩
  · intro me v hme hv hs pre g post hsplit hpre hgd hge
    rw [hsaved me v hme hv hs]
    exact (recordGrade_grades db deliverableId me.id v newId now).1
      pre g post hsplit hpre hgd hge
  · intro me v hme hv hs hnone
    rw [hsaved me v hme hv hs]
    exact (recordGrade_grades db deliverableId me.id v newId now).2 hnone
  · intro hns
    rcases Binary64.submitGrade_cases_double db deliverableId value newId now with
      ⟨h1, -⟩ | ⟨_, _, _, -, -, -, -, -, -, h2⟩
    · rw [h1]
    · rw [h2] at hns
      exact absurd rfl hns
  · intro db0 calls h0
    apply Binary64.submitAll_unique_double
    rw [h0]
    exact List.nodup_nil

/-- Witness of C4 on a ledger of two rows in which carol's row is the second one: her
    new grade 8.126 is stored as 8.13 in that row, at time `2000`, and dave's row and the
    number of rows are as before. -/
theorem submitGrade_preserves_unique_witness :
    GradesUnique twoRowDB.grades ∧
    Binary64.submitGrade twoRowDB "d1"
        (Binary64.F64.fin (Binary64.roundToDouble (8126 / 1000))) "g2" 2000 =
      ({ twoRowDB with
          grades := [⟨"g0", "d1", "u4", 6, 1400, 1400⟩,
                     ⟨"g1", "d1", "u3", Binary64.roundToDouble (813 / 100), 1500, 2000⟩] },
        SubmitOutcome.saved) ∧
    (GradesUnique (Binary64.submitGrade twoRowDB "d1"
        (Binary64.F64.fin (Binary64.roundToDouble (8126 / 1000))) "g2" 2000).1.grades ∧
    (∀ me, twoRowDB.session.bind (userById twoRowDB.users) = some me →
      (∃ g ∈ twoRowDB.grades, g.deliverableId = "d1" ∧ g.evaluatorId = me.id) →
      (Binary64.submitGrade twoRowDB "d1"
        (Binary64.F64.fin (Binary64.roundToDouble (8126 / 1000))) "g2" 2000).1.grades.length =
        twoRowDB.grades.length ∧
      (Binary64.submitGrade twoRowDB "d1"
        (Binary64.F64.fin (Binary64.roundToDouble (8126 / 1000))) "g2" 2000).1.grades.map
          (fun g => (g.id, g.deliverableId, g.evaluatorId, g.createdAt)) =
        twoRowDB.grades.map (fun g => (g.id, g.deliverableId, g.evaluatorId, g.createdAt))) ∧
    (∀ me v, twoRowDB.session.bind (userById twoRowDB.users) = some me →
      Binary64.clamp2Decimals (Binary64.F64.fin (Binary64.roundToDouble (8126 / 1000))) =
        Binary64.F64.fin v →
      (Binary64.submitGrade twoRowDB "d1"
        (Binary64.F64.fin (Binary64.roundToDouble (8126 / 1000))) "g2" 2000).2 =
        SubmitOutcome.saved →
      ∀ pre g post, twoRowDB.grades = pre ++ g :: post →
        (∀ y ∈ pre, ¬ (y.deliverableId = "d1" ∧ y.evaluatorId = me.id)) →
        g.deliverableId = "d1" → g.evaluatorId = me.id →
        (Binary64.submitGrade twoRowDB "d1"
          (Binary64.F64.fin (Binary64.roundToDouble (8126 / 1000))) "g2" 2000).1.grades =
          pre ++ { g with value := v, updatedAt := 2000 } :: post) ∧
    (∀ me v, twoRowDB.session.bind (userById twoRowDB.users) = some me →
      Binary64.clamp2Decimals (Binary64.F64.fin (Binary64.roundToDouble (8126 / 1000))) =
        Binary64.F64.fin v →
      (Binary64.submitGrade twoRowDB "d1"
        (Binary64.F64.fin (Binary64.roundToDouble (8126 / 1000))) "g2" 2000).2 =
        SubmitOutcome.saved →
      (∀ y ∈ twoRowDB.grades, ¬ (y.deliverableId = "d1" ∧ y.evaluatorId = me.id)) →
      (Binary64.submitGrade twoRowDB "d1"
        (Binary64.F64.fin (Binary64.roundToDouble (8126 / 1000))) "g2" 2000).1.grades =
        twoRowDB.grades ++ [{ id := "g2", deliverableId := "d1", evaluatorId := me.id,
                               value := v, createdAt := 2000, updatedAt := 2000 }]) ∧
    ((Binary64.submitGrade twoRowDB "d1"
        (Binary64.F64.fin (Binary64.roundToDouble (8126 / 1000))) "g2" 2000).2 ≠
        SubmitOutcome.saved →
      (Binary64.submitGrade twoRowDB "d1"
        (Binary64.F64.fin (Binary64.roundToDouble (8126 / 1000))) "g2" 2000).1.grades =
        twoRowDB.grades) ∧
    (∀ calls : List Binary64.Submission,
      GradesUnique (Binary64.submitAll twoRowDB calls).grades) ∧
    (∀ (db0 : DB) (calls : List Binary64.Submission), db0.grades = [] →
      GradesUnique (Binary64.submitAll db0 calls).grades)) :=
  ⟨by decide, by decide!,
    submitGrade_preserves_unique twoRowDB "d1"
      (Binary64.F64.fin (Binary64.roundToDouble (8126 / 1000))) "g2" 2000 (by decide)⟩

/-- C6, amended: for a juror inside the edit window the raw value 9.999 is rounded to 10
    and saved as 10, the raw value 9.99 is saved as 9.99, and the raw value 0.5 ends with
    the invalid-grade alert and leaves the database as it was. -/
theorem submitGrade_rounds_then_validates (db : DB) (deliverableId : String)
    (newId : String) (now : Int) (me : User) (d : Deliverable)
    (hme : db.session.bind (userById db.users) = some me)
    (hd : deliverableById db.deliverables deliverableId = some d)
    (hj : me.id ∈ roster d) (hc : canEditGrade d now = true) :
    (submitGrade db deliverableId (some (9999 / 1000)) newId now =
        (recordGrade db deliverableId me.id 10 newId now, SubmitOutcome.saved) ∧
      ∃ g ∈ (submitGrade db deliverableId (some (9999 / 1000)) newId now).1.grades,
        g.deliverableId = deliverableId ∧ g.evaluatorId = me.id ∧ g.value = 10) ∧
    (submitGrade db deliverableId (some (999 / 100)) newId now =
        (recordGrade db deliverableId me.id (999 / 100) newId now, SubmitOutcome.saved) ∧
      ∃ g ∈ (submitGrade db deliverableId (some (999 / 100)) newId now).1.grades,
        g.deliverableId = deliverableId ∧ g.evaluatorId = me.id ∧ g.value = 999 / 100) ∧
    submitGrade db deliverableId (some (1 / 2)) newId now = (db, SubmitOutcome.invalidGrade) := by
  have h1 := submitGrade_saved db deliverableId (9999 / 1000) newId now me d hme hd hj hc
    (by rw [clamp2Decimals_9999]; decide!)
  have h2 := submitGrade_saved db deliverableId (999 / 100) newId now me d hme hd hj hc
    (by rw [clamp2Decimals_999]; decide!)
  rw [clamp2Decimals_9999] at h1
  rw [clamp2Decimals_999] at h2
  refine ⟨⟨h1, ?_⟩, ⟨h2, ?_⟩, ?_⟩
  · rw [h1]
    obtain ⟨g, hg, h3, h4, h5, -⟩ := recordGrade_mem db deliverableId me.id 10 newId now
    exact ⟨g, hg, h3, h4, h5⟩
  · rw [h2]
    obtain ⟨g, hg, h3, h4, h5, -⟩ := recordGrade_mem db deliverableId me.id (999 / 100) newId now
    exact ⟨g, hg, h3, h4, h5⟩
  · exact submitGrade_invalid db deliverableId (some (1 / 2)) newId now me d hme hd hj hc
      (by simp only [Option.map_some', clamp2Decimals_half]; decide!)

/-- Witness of the amended C6 on the sample database at time `2000`. -/
theorem submitGrade_rounds_then_validates_witness :
    (juriedDB.session.bind (userById juriedDB.users) = some ⟨"u3", "carol", "student"⟩ ∧
      deliverableById juriedDB.deliverables "d1" = some juriedDeliverable ∧
      "u3" ∈ roster juriedDeliverable ∧ canEditGrade juriedDeliverable 2000 = true) ∧
    ((submitGrade juriedDB "d1" (some (9999 / 1000)) "g1" 2000 =
        (recordGrade juriedDB "d1" "u3" 10 "g1" 2000, SubmitOutcome.saved) ∧
      ∃ g ∈ (submitGrade juriedDB "d1" (some (9999 / 1000)) "g1" 2000).1.grades,
        g.deliverableId = "d1" ∧ g.evaluatorId = "u3" ∧ g.value = 10) ∧
    (submitGrade juriedDB "d1" (some (999 / 100)) "g1" 2000 =
        (recordGrade juriedDB "d1" "u3" (999 / 100) "g1" 2000, SubmitOutcome.saved) ∧
      ∃ g ∈ (submitGrade juriedDB "d1" (some (999 / 100)) "g1" 2000).1.grades,
        g.deliverableId = "d1" ∧ g.evaluatorId = "u3" ∧ g.value = 999 / 100) ∧
    submitGrade juriedDB "d1" (some (1 / 2)) "g1" 2000 = (juriedDB, SubmitOutcome.invalidGrade)) :=
  ⟨⟨by decide, by decide!, by decide, by decide!⟩,
    submitGrade_rounds_then_validates juriedDB "d1" "g1" 2000 ⟨"u3", "carol", "student"⟩
      juriedDeliverable (by decide) (by decide!) (by decide) (by decide!)⟩

/-- Counterexample to C6 as stated: carol, a juror inside the edit window, submits 9.999;
    the call does not end with the invalid-grade alert but saves a row of value 10. -/
theorem submitGrade_accepts_9999 :
    (submitGrade juriedDB "d1" (some (9999 / 1000)) "g1" 2000).2 ≠ SubmitOutcome.invalidGrade ∧
    submitGrade juriedDB "d1" (some (9999 / 1000)) "g1" 2000 =
      ({ juriedDB with grades := [⟨"g1", "d1", "u3", 10, 2000, 2000⟩] }, SubmitOutcome.saved) := by
  decide!

/-- C9: a rejected `submitGrade` leaves the stored database as it was. Whenever the call
    ends otherwise than with the save, the database after it is the database before it,
    so no row is created or modified; and each of the listed reasons (no logged-in user,
    unknown deliverable, user not on the roster, window closed, invalid value) makes the
    call end otherwise than with the save. -/
theorem submitGrade_rejected_keeps_state (db : DB) (deliverableId : String) (value : JSNum)
    (newId : String) (now : Int) :
    ((submitGrade db deliverableId value newId now).2 ≠ SubmitOutcome.saved →
      (submitGrade db deliverableId value newId now).1 = db ∧
      (submitGrade db deliverableId value newId now).1.grades = db.grades) ∧
    ((db.session.bind (userById db.users) = none ∨
        deliverableById db.deliverables deliverableId = none ∨
        ∃ me d, db.session.bind (userById db.users) = some me ∧
          deliverableById db.deliverables deliverableId = some d ∧
          (me.id ∉ roster d ∨ canEditGrade d now = false ∨
            isValidGrade (value.map clamp2Decimals) = false)) →
      (submitGrade db deliverableId value newId now).2 ≠ SubmitOutcome.saved) := by
  constructor
  · intro h
    rcases submitGrade_cases db deliverableId value newId now with
      ⟨h1, -⟩ | ⟨me, d, x, -, -, -, -, -, -, h2⟩
    · exact ⟨h1, by rw [h1]⟩
    · rw [h2] at h
      exact absurd rfl h
  · intro h
    rcases submitGrade_cases db deliverableId value newId now with
      ⟨-, h1⟩ | ⟨me, d, x, hme, hd, hj, hc, hx, hv, -⟩
    · exact h1
    · exfalso
      rcases h with h | h | ⟨me', d', hme', hd', h⟩
      · rw [h] at hme; exact absurd hme (by simp)
      · rw [h] at hd; exact absurd hd (by simp)
      · rw [hme] at hme'
        rw [hd] at hd'
        have e1 : me = me' := Option.some.inj hme'
        have e2 : d = d' := Option.some.inj hd'
        subst e1 e2
        rcases h with h | h | h
        · exact h hj
        · rw [hc] at h; exact absurd h (by simp)
        · rw [hx] at h
          simp only [Option.map_some'] at h
          rw [hv] at h
          exact absurd h (by simp)

/-- Witness of C9: after the window has closed, carol's attempt to change her grade is
    rejected and the sample database is as it was. -/
theorem submitGrade_rejected_keeps_state_witness :
    (submitGrade gradedDB "d1" (some 9) "g1" 700000).2 = SubmitOutcome.editingExpired ∧
    (submitGrade gradedDB "d1" (some 9) "g1" 700000).2 ≠ SubmitOutcome.saved ∧
    (submitGrade gradedDB "d1" (some 9) "g1" 700000).1 = gradedDB ∧
    (submitGrade gradedDB "d1" (some 9) "g1" 700000).1.grades = gradedDB.grades :=
  ⟨by decide!, by decide!,
    (submitGrade_rejected_keeps_state gradedDB "d1" (some 9) "g1" 700000).1 (by decide!)⟩

/-- C10: `eligibleEvaluatorsForDeliverable` returns exactly the eligible users. When the
    project of the deliverable resolves, a user is in the result exactly when the user is
    in `db.users`, has role student and has a username that no entry of the team equals
    after lower-casing, and the result lists these users in the order of `db.users`; when
    the project does not resolve the result is empty. The function only reads `db`. -/
theorem eligibleEvaluatorsForDeliverable_exact (toLowerCase : String → String) (db : DB)
    (d : Deliverable) :
    (∀ p, projectById db.projects d.projectId = some p →
      (∀ u, u ∈ eligibleEvaluatorsForDeliverable toLowerCase db d ↔
        u ∈ db.users ∧ u.role = "student" ∧
          ∀ t ∈ p.teamUsernames, toLowerCase t ≠ toLowerCase u.username) ∧
      (eligibleEvaluatorsForDeliverable toLowerCase db d).Sublist db.users) ∧
    (projectById db.projects d.projectId = none →
      eligibleEvaluatorsForDeliverable toLowerCase db d = []) := by
  constructor
  · intro p hp
    constructor
    · intro u
      simp [eligibleEvaluatorsForDeliverable, hp, isUserInTeam]
    · simp only [eligibleEvaluatorsForDeliverable, hp]
      exact List.filter_sublist _
  · intro hp
    simp [eligibleEvaluatorsForDeliverable, hp]

/-- Witness of C10 on the sample database: the eligible evaluators are carol, dave and
    erin. -/
theorem eligibleEvaluatorsForDeliverable_exact_witness :
    projectById sampleDB.projects sampleDeliverable.projectId = some sampleProject ∧
    eligibleEvaluatorsForDeliverable asciiLower sampleDB sampleDeliverable =
      [⟨"u3", "carol", "student"⟩, ⟨"u4", "dave", "student"⟩, ⟨"u5", "erin", "student"⟩] ∧
    ((∀ u, u ∈ eligibleEvaluatorsForDeliverable asciiLower sampleDB sampleDeliverable ↔
        u ∈ sampleDB.users ∧ u.role = "student" ∧
          ∀ t ∈ sampleProject.teamUsernames, asciiLower t ≠ asciiLower u.username) ∧
      (eligibleEvaluatorsForDeliverable asciiLower sampleDB sampleDeliverable).Sublist
        sampleDB.users) :=
  ⟨by decide, by decide,
    (eligibleEvaluatorsForDeliverable_exact asciiLower sampleDB sampleDeliverable).1
      sampleProject (by decide)⟩

/-- C11, amended: the shape of what a due top-up appends. When user ids are pairwise
    distinct, the roster has no duplicates and the time is at or after `dueAt`, the
    roster after `assignJuryIfDue` is the old roster followed by ids that are pairwise
    distinct, are not on the old roster and are ids of eligible evaluators; their number
    is the integer part of `min (max needed 0) |candidates|`, which is that minimum
    itself when `jurySize` is an integer; the new roster has no duplicates and is not
    longer than `max 3 jurySize` unless the old one was. -/
theorem assignJuryIfDue_appended_shape (toLowerCase : String → String) (db : DB)
    (d : Deliverable) (now : Int) (rnd : Nat → Unit01)
    (hids : (db.users.map (fun u => u.id)).Nodup)
    (hr : (roster d).Nodup) (hdue : d.dueAt ≤ now) :
    ∃ added : List String,
      roster (assignJuryIfDue toLowerCase db d now rnd) = roster d ++ added ∧
      added.Nodup ∧
      (∀ i ∈ added, i ∉ roster d ∧
        ∃ u ∈ eligibleEvaluatorsForDeliverable toLowerCase db d, u.id = i) ∧
      ((added.length : ℚ) =
        ((⌊min (max (max 3 d.jurySize - ((roster d).length : ℚ)) 0)
          ((((eligibleEvaluatorsForDeliverable toLowerCase db d).filter
            (fun u => !(roster d).contains u.id)).length : Nat) : ℚ)⌋ : Int) : ℚ)) ∧
      ((∃ k : Int, d.jurySize = (k : ℚ)) →
        (added.length : ℚ) =
          min (max (max 3 d.jurySize - ((roster d).length : ℚ)) 0)
            ((((eligibleEvaluatorsForDeliverable toLowerCase db d).filter
              (fun u => !(roster d).contains u.id)).length : Nat) : ℚ)) ∧
      (roster (assignJuryIfDue toLowerCase db d now rnd)).Nodup ∧
      (((roster d).length : ℚ) ≤ max 3 d.jurySize →
        ((roster (assignJuryIfDue toLowerCase db d now rnd)).length : ℚ) ≤ max 3 d.jurySize) := by
  have hro : roster (assignJuryIfDue toLowerCase db d now rnd) =
      roster d ++ (addedUsers toLowerCase db d rnd).map (fun u => u.id) := by
    rw [roster_assignJuryIfDue, if_neg (not_lt.mpr hdue)]
  have hnd := nodup_ids_addedUsers toLowerCase db d rnd hids
  have hmem : ∀ i ∈ (addedUsers toLowerCase db d rnd).map (fun u => u.id), i ∉ roster d ∧
      ∃ u ∈ eligibleEvaluatorsForDeliverable toLowerCase db d, u.id = i := by
    intro i hi
    obtain ⟨u, hu, rfl⟩ := List.mem_map.mp hi
    have hc := (mem_candidatesOf _ _ _ _).mp (mem_addedUsers _ _ _ _ _ hu)
    exact ⟨hc.2, u, hc.1, rfl⟩
  have hlen : (((addedUsers toLowerCase db d rnd).map (fun u => u.id)).length : ℚ) =
      ((⌊min (max (max 3 d.jurySize - ((roster d).length : ℚ)) 0)
        ((((eligibleEvaluatorsForDeliverable toLowerCase db d).filter
          (fun u => !(roster d).contains u.id)).length : Nat) : ℚ)⌋ : Int) : ℚ) := by
    rw [List.length_map, length_addedUsers_floor, neededOf_eq]
    rfl
  refine ⟨(addedUsers toLowerCase db d rnd).map (fun u => u.id), hro, hnd, hmem, hlen, ?_, ?_, ?_⟩
  · rintro ⟨k, hk⟩
    rw [hlen, hk]
    have hz : min (max (max 3 (k : ℚ) - ((roster d).length : ℚ)) 0)
        ((((eligibleEvaluatorsForDeliverable toLowerCase db d).filter
          (fun u => !(roster d).contains u.id)).length : Nat) : ℚ) =
        ((min (max (max 3 k - ((roster d).length : Int)) 0)
          ((((eligibleEvaluatorsForDeliverable toLowerCase db d).filter
            (fun u => !(roster d).contains u.id)).length : Nat) : Int) : Int) : ℚ) := by
      push_cast
      rfl
    rw [hz, Int.floor_intCast]
  · rw [hro]
    refine List.nodup_append.mpr ⟨hr, hnd, ?_⟩
    intro i hi1 hi2
    exact (hmem i hi2).1 hi1
  · intro hle
    rw [hro, List.length_append, Nat.cast_add, hlen]
    have hfl := Int.floor_le (min (max (max 3 d.jurySize - ((roster d).length : ℚ)) 0)
      ((((eligibleEvaluatorsForDeliverable toLowerCase db d).filter
        (fun u => !(roster d).contains u.id)).length : Nat) : ℚ))
    have hmin := min_le_left (max (max 3 d.jurySize - ((roster d).length : ℚ)) 0)
      ((((eligibleEvaluatorsForDeliverable toLowerCase db d).filter
        (fun u => !(roster d).contains u.id)).length : Nat) : ℚ)
    have hmax : max (max 3 d.jurySize - ((roster d).length : ℚ)) 0 =
        max 3 d.jurySize - ((roster d).length : ℚ) := max_eq_left (by linarith)
    have hmin2 := hmin.trans (le_of_eq hmax)
    linarith

/-- Witness of the amended C11 on the sample database, whose jury size is the integer 5:
    three ids are appended, the three candidates. -/
theorem assignJuryIfDue_appended_shape_witness :
    ((sampleDB.users.map (fun u => u.id)).Nodup ∧ (roster sampleDeliverable).Nodup ∧
      sampleDeliverable.dueAt ≤ 2000) ∧
    roster (assignJuryIfDue asciiLower sampleDB sampleDeliverable 2000 rndZero) =
      ["u4", "u5", "u3"] ∧
    ∃ added : List String,
      roster (assignJuryIfDue asciiLower sampleDB sampleDeliverable 2000 rndZero) =
        roster sampleDeliverable ++ added ∧
      added.Nodup ∧
      (∀ i ∈ added, i ∉ roster sampleDeliverable ∧
        ∃ u ∈ eligibleEvaluatorsForDeliverable asciiLower sampleDB sampleDeliverable, u.id = i) ∧
      ((added.length : ℚ) =
        ((⌊min (max (max 3 sampleDeliverable.jurySize -
            ((roster sampleDeliverable).length : ℚ)) 0)
          ((((eligibleEvaluatorsForDeliverable asciiLower sampleDB sampleDeliverable).filter
            (fun u => !(roster sampleDeliverable).contains u.id)).length : Nat) : ℚ)⌋ : Int) : ℚ)) ∧
      ((∃ k : Int, sampleDeliverable.jurySize = (k : ℚ)) →
        (added.length : ℚ) =
          min (max (max 3 sampleDeliverable.jurySize - ((roster sampleDeliverable).length : ℚ)) 0)
            ((((eligibleEvaluatorsForDeliverable asciiLower sampleDB sampleDeliverable).filter
              (fun u => !(roster sampleDeliverable).contains u.id)).length : Nat) : ℚ)) ∧
      (roster (assignJuryIfDue asciiLower sampleDB sampleDeliverable 2000 rndZero)).Nodup ∧
      (((roster sampleDeliverable).length : ℚ) ≤ max 3 sampleDeliverable.jurySize →
        ((roster (assignJuryIfDue asciiLower sampleDB sampleDeliverable 2000 rndZero)).length : ℚ) ≤
          max 3 sampleDeliverable.jurySize) :=
  ⟨⟨by decide, by decide, by decide⟩, by decide!,
    assignJuryIfDue_appended_shape asciiLower sampleDB sampleDeliverable 2000 rndZero
      (by decide) (by decide) (by decide)⟩

/-- Counterexample to C11 as stated: with the jury size `3.5`, an empty roster and four
    candidates, `needed` is `3.5` and `min (max needed 0) |candidates|` is `3.5`, while
    three ids are appended. -/
theorem assignJuryIfDue_appends_integer_part :
    ((soloDB.users.map (fun u => u.id)).Nodup ∧ (roster halfSizeDeliverable).Nodup ∧
      halfSizeDeliverable.dueAt ≤ 2000) ∧
    roster halfSizeDeliverable = [] ∧
    roster (assignJuryIfDue asciiLower soloDB halfSizeDeliverable 2000 rndZero) =
      ["u3", "u4", "u5"] ∧
    min (max (max 3 halfSizeDeliverable.jurySize - ((roster halfSizeDeliverable).length : ℚ)) 0)
      ((((eligibleEvaluatorsForDeliverable asciiLower soloDB halfSizeDeliverable).filter
        (fun u => !(roster halfSizeDeliverable).contains u.id)).length : Nat) : ℚ) = 7 / 2 ∧
    ¬ (((roster (assignJuryIfDue asciiLower soloDB halfSizeDeliverable 2000 rndZero)).length : ℚ) -
        ((roster halfSizeDeliverable).length : ℚ) =
      min (max (max 3 halfSizeDeliverable.jurySize - ((roster halfSizeDeliverable).length : ℚ)) 0)
        ((((eligibleEvaluatorsForDeliverable asciiLower soloDB halfSizeDeliverable).filter
          (fun u => !(roster halfSizeDeliverable).contains u.id)).length : Nat) : ℚ)) := by
  decide!

/-- C12: the final grade of valid grades is a valid grade. For at least three values,
    each in `[1, 10]` with at most two fractional digits, `computeFinalGradeFromValues`
    returns a number of hundredths that lies between the second-smallest and the
    second-largest value, hence in `[1, 10]` and between the minimum and the maximum of
    the list, and that `isValidGrade` accepts; every reordering of the list gives the
    same result. -/
theorem computeFinalGradeFromValues_valid (values : List ℚ) (hlen : 3 ≤ values.length)
    (hvalid : ∀ x ∈ values, isValidGrade (some x) = true) :
    ∃ r lo hi : ℚ,
      computeFinalGradeFromValues values = some r ∧
      secondSmallest values = some lo ∧ secondLargest values = some hi ∧
      lo ≤ r ∧ r ≤ hi ∧
      (∃ k : Int, r * 100 = (k : ℚ)) ∧ 1 ≤ r ∧ r ≤ 10 ∧ isValidGrade (some r) = true ∧
      (∀ mn ∈ values, (∀ y ∈ values, mn ≤ y) → mn ≤ r) ∧
      (∀ mx ∈ values, (∀ y ∈ values, y ≤ mx) → r ≤ mx) ∧
      (∀ values' : List ℚ, values'.Perm values →
        computeFinalGradeFromValues values' = some r) := by
  obtain ⟨a, b, lo, hi, mid, hs, hne, hcomp, hlo, hhi, hlomem, hhimem, -, -, hmid⟩ :=
    computeFinalGradeFromValues_middle values hlen
  have hperm := List.perm_insertionSort (fun a b : ℚ => a ≤ b) values
  have hsub : ∀ x ∈ mid, x ∈ values := by
    intro x hx
    apply hperm.subset
    rw [hs]
    exact List.mem_cons_of_mem _ (List.mem_append_left _ hx)
  obtain ⟨hlo1, -, kl, hkl⟩ := (isValidGrade_some_iff lo).mp (hvalid lo (hsub lo hlomem))
  obtain ⟨-, hhi10, kh, hkh⟩ := (isValidGrade_some_iff hi).mp (hvalid hi (hsub hi hhimem))
  obtain ⟨havg1, havg2⟩ := average_between mid lo hi hne hmid
  obtain ⟨hr1, hr2⟩ :=
    clamp2Decimals_between lo hi (mid.sum / (mid.length : ℚ)) kl kh hkl hkh havg1 havg2
  have hk := clamp2Decimals_hundredths (mid.sum / (mid.length : ℚ))
  have h1 : 1 ≤ clamp2Decimals (mid.sum / (mid.length : ℚ)) := le_trans hlo1 hr1
  have h10 : clamp2Decimals (mid.sum / (mid.length : ℚ)) ≤ 10 := le_trans hr2 hhi10
  refine ⟨_, lo, hi, hcomp, hlo, hhi, hr1, hr2, hk, h1, h10,
    (isValidGrade_some_iff _).mpr ⟨h1, h10, hk⟩, ?_, ?_, ?_⟩
  · intro mn _ hmn
    exact le_trans (hmn lo (hsub lo hlomem)) hr1
  · intro mx _ hmx
    exact le_trans hr2 (hmx hi (hsub hi hhimem))
  · intro values' hp
    rw [computeFinalGradeFromValues_perm values values' hp, hcomp]

/-- Witness of C12 on the grades 7.25, 9.5, 3, 8.12 and 6.01: the final grade is 7.13,
    between the second-smallest 6.01 and the second-largest 8.12. -/
theorem computeFinalGradeFromValues_valid_witness :
    (3 ≤ ([725 / 100, 95 / 10, 3, 812 / 100, 601 / 100] : List ℚ).length ∧
      ∀ x ∈ ([725 / 100, 95 / 10, 3, 812 / 100, 601 / 100] : List ℚ),
        isValidGrade (some x) = true) ∧
    computeFinalGradeFromValues [725 / 100, 95 / 10, 3, 812 / 100, 601 / 100] =
      some (713 / 100) ∧
    secondSmallest [725 / 100, 95 / 10, 3, 812 / 100, 601 / 100] = some (601 / 100) ∧
    secondLargest [725 / 100, 95 / 10, 3, 812 / 100, 601 / 100] = some (812 / 100) ∧
    ∃ r lo hi : ℚ,
      computeFinalGradeFromValues [725 / 100, 95 / 10, 3, 812 / 100, 601 / 100] = some r ∧
      secondSmallest [725 / 100, 95 / 10, 3, 812 / 100, 601 / 100] = some lo ∧
      secondLargest [725 / 100, 95 / 10, 3, 812 / 100, 601 / 100] = some hi ∧
      lo ≤ r ∧ r ≤ hi ∧
      (∃ k : Int, r * 100 = (k : ℚ)) ∧ 1 ≤ r ∧ r ≤ 10 ∧ isValidGrade (some r) = true ∧
      (∀ mn ∈ ([725 / 100, 95 / 10, 3, 812 / 100, 601 / 100] : List ℚ),
        (∀ y ∈ ([725 / 100, 95 / 10, 3, 812 / 100, 601 / 100] : List ℚ), mn ≤ y) → mn ≤ r) ∧
      (∀ mx ∈ ([725 / 100, 95 / 10, 3, 812 / 100, 601 / 100] : List ℚ),
        (∀ y ∈ ([725 / 100, 95 / 10, 3, 812 / 100, 601 / 100] : List ℚ), y ≤ mx) → r ≤ mx) ∧
      (∀ values' : List ℚ,
        values'.Perm ([725 / 100, 95 / 10, 3, 812 / 100, 601 / 100] : List ℚ) →
        computeFinalGradeFromValues values' = some r) :=
  ⟨⟨by decide, by decide!⟩, by decide!, by decide!, by decide!,
    computeFinalGradeFromValues_valid [725 / 100, 95 / 10, 3, 812 / 100, 601 / 100]
      (by decide) (by decide!)⟩

/-- C5, amended: the edit window of `submitGrade` in the arithmetic of doubles. For a
    deliverable that exists, a logged-in user on its roster and a value that is a valid
    grade after rounding, the call ends with the editing-expired alert exactly when the
    current time is after `end`, the value of `dueAt + editWindowMin * 60 * 1000` as the
    code computes it, and at every time up to and including `end` the call saves and
    the ledger holds the row of the pair with the rounded value. When `editWindowMin` is
    a whole number and the quantities stay below `2 ^ 53`, `end` is exactly
    `dueAt + editWindowMin * 60000`, so the alert comes exactly when the current time is
    after that instant. -/
theorem submitGrade_edit_window_double (db : DB) (deliverableId : String)
    (value : Binary64.F64) (newId : String) (now : Int) (me : User) (d : Deliverable)
    (hme : db.session.bind (userById db.users) = some me)
    (hd : deliverableById db.deliverables deliverableId = some d)
    (hj : me.id ∈ roster d)
    (hv : Binary64.isValidGrade (Binary64.clamp2Decimals value) = true) :
    ((Binary64.submitGrade db deliverableId value newId now).2 = SubmitOutcome.editingExpired ↔
      Binary64.leF64 now (Binary64.windowEnd d) = false) ∧
    (Binary64.leF64 now (Binary64.windowEnd d) = true →
      (Binary64.submitGrade db deliverableId value newId now).2 = SubmitOutcome.saved ∧
      ∃ v, Binary64.clamp2Decimals value = Binary64.F64.fin v ∧
        ∃ g ∈ (Binary64.submitGrade db deliverableId value newId now).1.grades,
          g.deliverableId = deliverableId ∧ g.evaluatorId = me.id ∧
          g.value = v ∧ g.updatedAt = now) ∧
    (∀ k : Int, d.editWindowMin = (k : ℚ) →
      |(k : ℚ)| * 60000 < (2 : ℚ) ^ (53 : Nat) →
      |(d.dueAt : ℚ) + (k : ℚ) * 60000| < (2 : ℚ) ^ (53 : Nat) →
      ((Binary64.submitGrade db deliverableId value newId now).2 =
          SubmitOutcome.editingExpired ↔
        (d.dueAt : ℚ) + d.editWindowMin * 60000 < (now : ℚ)) ∧
      ((now : ℚ) ≤ (d.dueAt : ℚ) + d.editWindowMin * 60000 →
        (Binary64.submitGrade db deliverableId value newId now).2 = SubmitOutcome.saved ∧
        ∃ v, Binary64.clamp2Decimals value = Binary64.F64.fin v ∧
          ∃ g ∈ (Binary64.submitGrade db deliverableId value newId now).1.grades,
            g.deliverableId = deliverableId ∧ g.evaluatorId = me.id ∧
            g.value = v ∧ g.updatedAt = now)) := by
  have hsaved : Binary64.leF64 now (Binary64.windowEnd d) = true →
      (Binary64.submitGrade db deliverableId value newId now).2 = SubmitOutcome.saved ∧
      ∃ v, Binary64.clamp2Decimals value = Binary64.F64.fin v ∧
        ∃ g ∈ (Binary64.submitGrade db deliverableId value newId now).1.grades,
          g.deliverableId = deliverableId ∧ g.evaluatorId = me.id ∧
          g.value = v ∧ g.updatedAt = now := by
    intro hc
    obtain ⟨v, hval, hs⟩ :=
      Binary64.submitGrade_saved_double db deliverableId value newId now me d hme hd hj hc hv
    rw [hs]
    exact ⟨rfl, v, hval, recordGrade_mem db deliverableId me.id v newId now⟩
  have hexp : (Binary64.submitGrade db deliverableId value newId now).2 =
      SubmitOutcome.editingExpired ↔ Binary64.leF64 now (Binary64.windowEnd d) = false := by
    cases hc : Binary64.leF64 now (Binary64.windowEnd d) with
    | false =>
      rw [Binary64.submitGrade_expired_double db deliverableId value newId now me d hme hd hj hc]
      simp
    | true =>
      have := (hsaved hc).1
      rw [this]
      simp
  refine ⟨hexp, hsaved, ?_⟩
  intro k hk h1 h2
  have hend := Binary64.windowEnd_intCast d k hk h1 h2
  have hle : Binary64.leF64 now (Binary64.windowEnd d) = true ↔
      (now : ℚ) ≤ (d.dueAt : ℚ) + d.editWindowMin * 60000 := by
    rw [hend]; simp [Binary64.leF64]
  constructor
  · rw [hexp, ← not_le, ← hle]
    simp
  · intro hnow
    exact hsaved (hle.mpr hnow)

/-- Witness of the amended C5 at the last instant of a window of 10 minutes,
    `1000 + 10 * 60000 = 601000`: the call saves there and is refused one millisecond
    later. -/
theorem submitGrade_edit_window_double_witness :
    (juriedDB.session.bind (userById juriedDB.users) = some ⟨"u3", "carol", "student"⟩ ∧
      deliverableById juriedDB.deliverables "d1" = some juriedDeliverable ∧
      "u3" ∈ roster juriedDeliverable ∧
      Binary64.isValidGrade (Binary64.clamp2Decimals (Binary64.F64.fin 8)) = true) ∧
    Binary64.submitGrade juriedDB "d1" (Binary64.F64.fin 8) "g1" 601000 =
      ({ juriedDB with grades := [⟨"g1", "d1", "u3", 8, 601000, 601000⟩] },
        SubmitOutcome.saved) ∧
    Binary64.submitGrade juriedDB "d1" (Binary64.F64.fin 8) "g1" 601001 =
      (juriedDB, SubmitOutcome.editingExpired) ∧
    (((Binary64.submitGrade juriedDB "d1" (Binary64.F64.fin 8) "g1" 601000).2 =
        SubmitOutcome.editingExpired ↔
      Binary64.leF64 601000 (Binary64.windowEnd juriedDeliverable) = false) ∧
    (Binary64.leF64 601000 (Binary64.windowEnd juriedDeliverable) = true →
      (Binary64.submitGrade juriedDB "d1" (Binary64.F64.fin 8) "g1" 601000).2 =
        SubmitOutcome.saved ∧
      ∃ v, Binary64.clamp2Decimals (Binary64.F64.fin 8) = Binary64.F64.fin v ∧
        ∃ g ∈ (Binary64.submitGrade juriedDB "d1" (Binary64.F64.fin 8) "g1" 601000).1.grades,
          g.deliverableId = "d1" ∧ g.evaluatorId = "u3" ∧
          g.value = v ∧ g.updatedAt = 601000) ∧
    (∀ k : Int, juriedDeliverable.editWindowMin = (k : ℚ) →
      |(k : ℚ)| * 60000 < (2 : ℚ) ^ (53 : Nat) →
      |(juriedDeliverable.dueAt : ℚ) + (k : ℚ) * 60000| < (2 : ℚ) ^ (53 : Nat) →
      ((Binary64.submitGrade juriedDB "d1" (Binary64.F64.fin 8) "g1" 601000).2 =
          SubmitOutcome.editingExpired ↔
        (juriedDeliverable.dueAt : ℚ) + juriedDeliverable.editWindowMin * 60000 <
          ((601000 : Int) : ℚ)) ∧
      ((((601000 : Int) : ℚ)) ≤
          (juriedDeliverable.dueAt : ℚ) + juriedDeliverable.editWindowMin * 60000 →
        (Binary64.submitGrade juriedDB "d1" (Binary64.F64.fin 8) "g1" 601000).2 =
          SubmitOutcome.saved ∧
        ∃ v, Binary64.clamp2Decimals (Binary64.F64.fin 8) = Binary64.F64.fin v ∧
          ∃ g ∈ (Binary64.submitGrade juriedDB "d1" (Binary64.F64.fin 8) "g1" 601000).1.grades,
            g.deliverableId = "d1" ∧ g.evaluatorId = "u3" ∧
            g.value = v ∧ g.updatedAt = 601000))) :=
  ⟨⟨by decide, by decide!, by decide, by decide!⟩, by decide!, by decide!,
    submitGrade_edit_window_double juriedDB "d1" (Binary64.F64.fin 8) "g1" 601000
      ⟨"u3", "carol", "student"⟩ juriedDeliverable (by decide) (by decide!) (by decide)
      (by decide!)⟩

/-- Counterexample to C5 as stated: with `dueAt = 1000` and a window of `4.29` minutes the
    code computes `end` as `258399.99999999997`, so carol's valid grade at the time
    `258400` ends with the editing-expired alert, although `258400` is not after
    `dueAt + editWindowMin * 60000`, whether `editWindowMin` is read as the stored double
    or as the decimal `4.29`. Likewise a window of `4.1` minutes ends at
    `246999.99999999997` and the time `247000` is refused. -/
theorem submitGrade_refuses_inside_window :
    (fractionalWindowDB.session.bind (userById fractionalWindowDB.users) =
        some ⟨"u3", "carol", "student"⟩ ∧
      deliverableById fractionalWindowDB.deliverables "d1" = some fractionalWindowDeliverable ∧
      "u3" ∈ roster fractionalWindowDeliverable ∧
      Binary64.isValidGrade (Binary64.clamp2Decimals (Binary64.F64.fin 8)) = true) ∧
    Binary64.windowEnd fractionalWindowDeliverable =
      Binary64.F64.fin (258400 - 1 / 2 ^ (35 : Nat)) ∧
    Binary64.submitGrade fractionalWindowDB "d1" (Binary64.F64.fin 8) "g1" 258400 =
      (fractionalWindowDB, SubmitOutcome.editingExpired) ∧
    ¬ ((fractionalWindowDeliverable.dueAt : ℚ) +
        fractionalWindowDeliverable.editWindowMin * 60000 < ((258400 : Int) : ℚ)) ∧
    ¬ ((fractionalWindowDeliverable.dueAt : ℚ) + (429 / 100) * 60000 <
        ((258400 : Int) : ℚ)) ∧
    Binary64.windowEnd
        { fractionalWindowDeliverable with editWindowMin := Binary64.roundToDouble (41 / 10) } =
      Binary64.F64.fin (247000 - 1 / 2 ^ (35 : Nat)) ∧
    Binary64.canEditGrade
        { fractionalWindowDeliverable with editWindowMin := Binary64.roundToDouble (41 / 10) }
        247000 = false := by
  decide!

/-- C2, amended: `computeFinalGradeFromValues` in the arithmetic of doubles. It is
    undetermined exactly when there are fewer than three values. Otherwise the list is a
    minimum, a maximum and a middle part in ascending order, one instance of each
    extreme being dropped also when values tie, and the result is
    `Math.round(m * 100) / 100` for the quotient `m` of the sum of the middle part,
    added in that order, by `n - 2`, each step rounded to a double. When the sum, the
    quotient and the product by 100 are exact, the result is the double nearest to the
    trimmed mean of the specification; so it is on `[10, 8, 9, 2]` and `[5, 5, 5]`,
    which give 8.50 and 5.00. -/
theorem computeFinalGradeFromValues_double (values : List ℚ) :
    (Binary64.computeFinalGradeFromValues values = none ↔ values.length < 3) ∧
    (3 ≤ values.length → ∃ (mn mx : ℚ) (mid : List ℚ),
      (mn :: (mid ++ [mx])).Perm values ∧
      (∀ x ∈ values, mn ≤ x) ∧ (∀ x ∈ values, x ≤ mx) ∧
      mid.Sorted (fun a b => a ≤ b) ∧ mid.length + 2 = values.length ∧
      Binary64.computeFinalGradeFromValues values =
        some (Binary64.clamp2Decimals (Binary64.divide
          (mid.foldl (fun s x => Binary64.add s (Binary64.F64.fin x)) (Binary64.F64.fin 0))
          (mid.length : ℚ))) ∧
      (mid.foldl (fun s x => Binary64.add s (Binary64.F64.fin x)) (Binary64.F64.fin 0) =
          Binary64.F64.fin mid.sum →
        Binary64.divide (Binary64.F64.fin mid.sum) (mid.length : ℚ) =
          Binary64.F64.fin (mid.sum / (mid.length : ℚ)) →
        Binary64.scale (Binary64.F64.fin (mid.sum / (mid.length : ℚ))) 100 =
          Binary64.F64.fin (mid.sum / (mid.length : ℚ) * 100) →
        ∃ r, trimmedMeanSpec values = some r ∧
          Binary64.computeFinalGradeFromValues values = some (Binary64.ofExact r))) ∧
    Binary64.computeFinalGradeFromValues [10, 8, 9, 2] = some (Binary64.F64.fin (17 / 2)) ∧
    Binary64.computeFinalGradeFromValues [5, 5, 5] = some (Binary64.F64.fin 5) := by
  refine ⟨?_, ?_, by decide!, by decide!⟩
  · unfold Binary64.computeFinalGradeFromValues
    split <;> simp_all
  · intro hlen
    obtain ⟨a, b, lo, hi, mid, hs, hne, hcomp, -, -, -, -, -, -, -⟩ :=
      computeFinalGradeFromValues_middle values hlen
    have hperm := List.perm_insertionSort (fun a b : ℚ => a ≤ b) values
    have hsorted := List.sorted_insertionSort (fun a b : ℚ => a ≤ b) values
    rw [hs] at hperm hsorted
    have hpw : (a :: (mid ++ [b])).Pairwise (fun a b : ℚ => a ≤ b) := hsorted
    have hpwmid : (mid ++ [b]).Pairwise (fun a b : ℚ => a ≤ b) := (List.pairwise_cons.mp hpw).2
    have ha : ∀ x ∈ values, a ≤ x := by
      intro x hx
      rcases List.mem_cons.mp (hperm.symm.subset hx) with h | h
      · rw [h]
      · exact (List.pairwise_cons.mp hpw).1 x h
    have hb : ∀ x ∈ values, x ≤ b := by
      intro x hx
      have hx' := hperm.symm.subset hx
      rw [← List.cons_append, List.mem_append] at hx'
      rw [← List.cons_append, List.pairwise_append] at hpw
      rcases hx' with h | h
      · exact hpw.2.2 x h b (by simp)
      · simp at h; rw [h]
    have hmidlen : mid.length + 2 = values.length := by
      rw [← hperm.length_eq]; simp
    have hd := Binary64.computeFinalGradeFromValues_middle_double values hlen a b mid hs
    refine ⟨a, b, mid, hperm, ha, hb, (List.pairwise_append.mp hpwmid).1, hmidlen, hd, ?_⟩
    intro hsum hdiv hmul
    have hspec := computeFinalGradeFromValues_eq_spec values
    rw [hcomp] at hspec
    refine ⟨clamp2Decimals (mid.sum / (mid.length : ℚ)), hspec.symm, ?_⟩
    rw [hd, hsum, hdiv]
    simp only [Binary64.clamp2Decimals, hmul, Binary64.mathRound, Binary64.divide]
    rfl

/-- Witness of the amended C2 on `[10, 8, 9, 2]`: the minimum 2 and the maximum 10 are
    dropped, the middle part is `[8, 9]` and the result is 8.5. -/
theorem computeFinalGradeFromValues_double_witness :
    3 ≤ ([10, 8, 9, 2] : List ℚ).length ∧
    ∃ (mn mx : ℚ) (mid : List ℚ),
      (mn :: (mid ++ [mx])).Perm [10, 8, 9, 2] ∧
      (∀ x ∈ ([10, 8, 9, 2] : List ℚ), mn ≤ x) ∧ (∀ x ∈ ([10, 8, 9, 2] : List ℚ), x ≤ mx) ∧
      mid.Sorted (fun a b => a ≤ b) ∧ mid.length + 2 = ([10, 8, 9, 2] : List ℚ).length ∧
      Binary64.computeFinalGradeFromValues [10, 8, 9, 2] =
        some (Binary64.clamp2Decimals (Binary64.divide
          (mid.foldl (fun s x => Binary64.add s (Binary64.F64.fin x)) (Binary64.F64.fin 0))
          (mid.length : ℚ))) ∧
      (mid.foldl (fun s x => Binary64.add s (Binary64.F64.fin x)) (Binary64.F64.fin 0) =
          Binary64.F64.fin mid.sum →
        Binary64.divide (Binary64.F64.fin mid.sum) (mid.length : ℚ) =
          Binary64.F64.fin (mid.sum / (mid.length : ℚ)) →
        Binary64.scale (Binary64.F64.fin (mid.sum / (mid.length : ℚ))) 100 =
          Binary64.F64.fin (mid.sum / (mid.length : ℚ) * 100) →
        ∃ r, trimmedMeanSpec [10, 8, 9, 2] = some r ∧
          Binary64.computeFinalGradeFromValues [10, 8, 9, 2] = some (Binary64.ofExact r)) :=
  ⟨by decide, (computeFinalGradeFromValues_double [10, 8, 9, 2]).2.1 (by decide)⟩

/-- Counterexample to C2 as stated: on the grades 1, 1, 1.01 and 10 the middle part is
    1 and 1.01, whose mean 1.005 rounds half-up to 1.01, by the reference definition both
    on the stored doubles and on the decimals; the code adds them to
    2.0099999999999998, halves that, multiplies by 100 to 100.49999999999999 and returns
    1, which is not the double 1.01. Likewise on 1, 1.15, 1.16 and 10 the code returns
    1.15 where the mean 1.155 of the decimals rounds half-up to 1.16. -/
theorem computeFinalGradeFromValues_rounds_tie_down :
    Binary64.computeFinalGradeFromValues [1, 1, Binary64.roundToDouble (101 / 100), 10] =
      some (Binary64.F64.fin 1) ∧
    trimmedMeanSpec [1, 1, Binary64.roundToDouble (101 / 100), 10] = some (101 / 100) ∧
    trimmedMeanSpec [1, 1, 101 / 100, 10] = some (101 / 100) ∧
    Binary64.ofExact (101 / 100) ≠ Binary64.F64.fin 1 ∧
    Binary64.computeFinalGradeFromValues
        [1, Binary64.roundToDouble (115 / 100), Binary64.roundToDouble (116 / 100), 10] =
      some (Binary64.ofExact (115 / 100)) ∧
    trimmedMeanSpec [1, 115 / 100, 116 / 100, 10] = some (116 / 100) ∧
    Binary64.ofExact (115 / 100) ≠ Binary64.ofExact (116 / 100) := by
  decide!

end AnonGrading
